import Mathlib

/-!
A shallow embedding of the airtable-cache Next.js route: the per-site
in-memory cache (`cache` / `timestamps`), the pagination merger
(`mergePaginatedData`), the refresh cycle (`refreshCache`), the snapshot
writer and loader (`saveCache` / `loadCache`) and the read path (`GET`).
JavaScript objects are modelled as association lists in key-insertion
order, which matches JavaScript object key order for non-integer string
keys; mutation of shared object references is modelled by an explicit
object heap keyed by the identifier each object was first stored under.
-/

/-- Upstream payload: the two fields of the cached JSON document that the
cache logic inspects (`data.records`, `data.offset`).  `none` models an
absent (or `undefined`) field; record elements are opaque strings. -/
structure Payload where
  records : Option (List String)
  offset : Option String
deriving DecidableEq

abbrev SiteStore := List (String × Payload)
abbrev SiteTimes := List (String × Nat)
abbrev Cache := List (String × SiteStore)
abbrev Times := List (String × SiteTimes)

def REFRESH_INTERVAL : Nat := 15 * 60 * 1000

def FORGET_INTERVAL : Nat := 7 * 24 * 60 * 60 * 1000

/-- Association-list lookup, modelling JavaScript property read `o[k]`. -/
def alookup {α : Type} (k : String) : List (String × α) → Option α
  | [] => none
  | e :: rest => if e.1 = k then some e.2 else alookup k rest

/-- Association-list write, modelling `o[k] = v`: an existing key keeps its
position, a new key is appended (JavaScript insertion order). -/
def aset {α : Type} (k : String) (v : α) : List (String × α) → List (String × α)
  | [] => [(k, v)]
  | e :: rest => if e.1 = k then (k, v) :: rest else e :: aset k v rest

/-- Association-list delete, modelling `delete o[k]`. -/
def aerase {α : Type} (k : String) : List (String × α) → List (String × α)
  | [] => []
  | e :: rest => if e.1 = k then rest else e :: aerase k rest

/-- Split a character list at the first occurrence of `sep`. -/
def breakAt (sep : Char) : List Char → Option (List Char × List Char)
  | [] => none
  | x :: xs =>
    if x = sep then some ([], xs)
    else (breakAt sep xs).map (fun pr => (x :: pr.1, pr.2))

/-- Split a character list on every occurrence of `sep`. -/
def splitOnChar (sep : Char) : List Char → List (List Char)
  | [] => [[]]
  | x :: xs =>
    match splitOnChar sep xs with
    | [] => [[]]
    | g :: gs => if x = sep then [] :: g :: gs else (x :: g) :: gs

/-- First value bound to `name` in a list of `k=v` query pairs; a pair with
no `=` and matching name yields the empty value, as `URLSearchParams` does. -/
def paramValue (name : List Char) : List (List Char) → Option (List Char)
  | [] => none
  | p :: ps =>
    match breakAt '=' p with
    | some kv => if kv.1 = name then some kv.2 else paramValue name ps
    | none => if p = name then some ([] : List Char) else paramValue name ps

/-- Models `new URL(url).searchParams.get('offset')` (`none` when
`searchParams.has('offset')` is false).  Percent-decoding is omitted:
tokens are compared verbatim, as the cache itself does. -/
def queryOffset (url : String) : Option String :=
  match breakAt '?' url.data with
  | none => none
  | some pq => (paramValue ['o', 'f', 'f', 's', 'e', 't'] (splitOnChar '&' pq.2)).map String.mk

/-- Models `paginatedUrl.searchParams.set('offset', tok)` on a URL that does
not already carry an offset parameter, as guaranteed by the refresh guard. -/
def setOffset (url tok : String) : String :=
  if (breakAt '?' url.data).isSome then url ++ "&offset=" ++ tok
  else url ++ "?offset=" ++ tok

/-- JavaScript truthiness of the `offset` payload field: absent and empty
string are falsy. -/
def offsetTruthy : Option String → Bool
  | none => false
  | some s => if s = "" then false else true

/-! ## Pagination merger (`mergePaginatedData`, part_000 lines 105-136)

The function snapshots `offsetStarts` (entries whose payload carries a
truthy offset token) and `offsetEnds` (entries whose identifier carries an
offset query parameter) once, then folds over the starts, mutating shared
payload objects in place.  `MState.objs` is the object heap: the current
contents of the payload object originally stored under each identifier.
`MState.keys` is the current key set of `cache[referrer]` in order, and
`MState.saved` records whether any `saveCache` call was made. -/

structure MState where
  objs : List (String × Payload)
  keys : List String
  times : SiteTimes
  saved : Bool
deriving DecidableEq

def startsOf (st : SiteStore) : List (String × String) :=
  st.filterMap (fun e => if offsetTruthy e.2.offset then some (e.1, e.2.offset.getD "") else none)

def endsOf (st : SiteStore) : List (String × String) :=
  st.filterMap (fun e =>
    match queryOffset e.1 with
    | some tok => some (e.1, tok)
    | none => none)

/-- One iteration of the merge loop for start `s`, with the captured
`offsetEnds` list.  On a match with both record collections present:
concatenate records, adopt the fragment's token (`|| undefined`), delete
the fragment's cache and timestamp entries, re-assign the head. -/
def mergeStep (ends : List (String × String)) (m : MState) (s : String × String) : MState :=
  match ends.find? (fun e => e.2 == s.2) with
  | none => m
  | some e =>
    match alookup s.1 m.objs, alookup e.1 m.objs with
    | some sd, some ed =>
      if sd.records.isSome && ed.records.isSome then
        let merged : Payload :=
          ⟨some (sd.records.getD [] ++ ed.records.getD []),
           if offsetTruthy ed.offset then ed.offset else none⟩
        let keys1 := m.keys.erase e.1
        ⟨aset s.1 merged m.objs,
         if keys1.contains s.1 then keys1 else keys1 ++ [s.1],
         aerase e.1 m.times, true⟩
      else m
    | _, _ => m

def runMergeSt (st : SiteStore) (tm : SiteTimes) : MState :=
  (startsOf st).foldl (mergeStep (endsOf st)) ⟨st, st.map Prod.fst, tm, false⟩

/-- Read the final `cache[referrer]` mapping back off an `MState`. -/
def mergedStore (m : MState) : SiteStore :=
  m.keys.filterMap (fun k => (alookup k m.objs).map (fun p => (k, p)))

/-- `mergePaginatedData` at the site level: final store, final timestamp
map, and whether a snapshot was written. -/
def runMerge (st : SiteStore) (tm : SiteTimes) : SiteStore × SiteTimes × Bool :=
  let m := runMergeSt st tm
  (mergedStore m, m.times, m.saved)

/-! ## Refresh cycle (`refreshCache`, part_000 lines 177-242) -/

/-- Result of an upstream fetch that did not throw. -/
structure FetchResult where
  ok : Bool
  status : Nat
  payload : Payload
deriving DecidableEq

/-- The upstream HTTP client: `none` models a transport error (`fetch`
threw), `some r` a response with status and parsed JSON body. -/
abbrev FetchFn := String → Option FetchResult

def csetE (ref url : String) (p : Payload) (c : Cache) : Cache :=
  aset ref (aset url p ((alookup ref c).getD [])) c

def tsetE (ref url : String) (n : Nat) (t : Times) : Times :=
  aset ref (aset url n ((alookup ref t).getD [])) t

/-- One step of the forgetting pass at the end of `refreshCache`
(part_000 lines 233-239).  Faithful to the source: the deletions
`delete cache[key]` / `delete timestamps[key]` act on the top-level maps,
not on the per-site maps.  A missing timestamp gives `NaN > FORGET_INTERVAL`,
which is false, so nothing is deleted for it. -/
def forgetStep (now : Nat) (ref : String) (ct : Cache × Times) (k : String) : Cache × Times :=
  match alookup k ((alookup ref ct.2).getD []) with
  | none => ct
  | some ts => if FORGET_INTERVAL < now - ts then (aerase k ct.1, aerase k ct.2) else ct

def forgetPass (now : Nat) (ref : String) (c : Cache) (t : Times) : Cache × Times :=
  (((alookup ref c).getD []).map Prod.fst).foldl (forgetStep now ref) (c, t)

/-- The `while (nextOffset)` pagination walk inside `refreshCache`
(part_000 lines 200-228).  The third component records whether the walk
aborted on an uncaught transport error, in which case the rest of
`refreshCache` never runs; a non-success status breaks the loop and lets
the merge and forgetting pass proceed.  `fuel` bounds loop iterations. -/
def walk (fetchFn : FetchFn) (now : Nat) (ref url : String) :
    Nat → Option String → Cache → Times → Cache × Times × Bool
  | 0, _, c, t => (c, t, false)
  | fuel+1, off, c, t =>
    if offsetTruthy off then
      let purl := setOffset url (off.getD "")
      match fetchFn purl with
      | none => (c, t, true)
      | some r =>
        if r.ok then
          walk fetchFn now ref url fuel r.payload.offset
            (csetE ref purl r.payload c) (tsetE ref purl now t)
        else (c, t, false)
    else (c, t, false)

/-- `mergePaginatedData(referrerHostname)` lifted to the two-level maps. -/
def mergeSite (ref : String) (c : Cache) (t : Times) : Cache × Times × Bool :=
  let m := runMergeSt ((alookup ref c).getD []) ((alookup ref t).getD [])
  (aset ref (mergedStore m) c, aset ref m.times t, m.saved)

/-- `refreshCache(url, referrerHostname)` (part_000).  Returns the new
state and whether any snapshot write (`saveCache`) happened. -/
def refreshCacheM (fetchFn : FetchFn) (fuel now : Nat) (url ref : String)
    (c : Cache) (t : Times) : Cache × Times × Bool :=
  if (queryOffset url).isSome then (c, t, false)
  else
    match fetchFn url with
    | none => (c, t, false)
    | some r =>
      let c1 := if r.ok then csetE ref url r.payload c else c
      let t1 := if r.ok then tsetE ref url now t else t
      if r.payload.offset.isSome then
        let w := walk fetchFn now ref url fuel r.payload.offset c1 t1
        if w.2.2 then (w.1, w.2.1, false)
        else
          let g := mergeSite ref w.1 w.2.1
          let f := forgetPass now ref g.1 g.2.1
          (f.1, f.2, true)
      else
        let f := forgetPass now ref c1 t1
        (f.1, f.2, true)

/-! ## Read path (`GET`, part_000 lines 43-103)

`GETm` takes the already-built upstream URL, the resolved referrer slug,
and the raw `refresh` query parameter.  The result is `none` when the
handler throws (transport error on a synchronous fetch), otherwise the
response `(status, payload)` and the state after all synchronous effects
and after the detached background refresh has completed.  The response
body is serialised after the synchronous merge ran, so it reflects the
payload object's contents at that point. -/

def GETmiss (fetchFn : FetchFn) (now : Nat) (url ref : String)
    (c : Cache) (t : Times) : Option ((Nat × Payload) × Cache × Times) :=
  match fetchFn url with
  | none => none
  | some r =>
    let c1 := if r.ok then csetE ref url r.payload c else c
    let t1 := if r.ok then tsetE ref url now t else t
    if (queryOffset url).isSome then
      let m := runMergeSt ((alookup ref c1).getD []) ((alookup ref t1).getD [])
      let resp := if r.ok then (alookup url m.objs).getD r.payload else r.payload
      some ((r.status, resp), aset ref (mergedStore m) c1, aset ref m.times t1)
    else
      some ((r.status, r.payload), c1, t1)

def GETm (fetchFn : FetchFn) (disk : String → Option SiteStore) (fuel now : Nat)
    (url ref : String) (refreshParam : Option String) (c : Cache) (t : Times) :
    Option ((Nat × Payload) × Cache × Times) :=
  let refresh := refreshParam.getD "false"
  let c1 := match alookup ref c with
    | some _ => c
    | none => aset ref ((disk ref).getD []) c
  let t1 := match alookup ref c with
    | some _ => t
    | none => aset ref (((disk ref).getD []).map (fun e => (e.1, now))) t
  let site := (alookup ref c1).getD []
  let tsite := (alookup ref t1).getD []
  match alookup url site with
  | some cached =>
    if refresh = "true" then GETmiss fetchFn now url ref c1 t1
    else
      let lastUpdated := (alookup url tsite).getD 0
      let doMerge := (queryOffset url).isSome
      let m := runMergeSt site tsite
      let c2 := if doMerge then aset ref (mergedStore m) c1 else c1
      let t2 := if doMerge then aset ref m.times t1 else t1
      let respPayload := if doMerge then (alookup url m.objs).getD cached else cached
      let c3t3 :=
        if REFRESH_INTERVAL < now - lastUpdated then
          let r := refreshCacheM fetchFn fuel now url ref c2 t2
          (r.1, r.2.1)
        else (c2, t2)
      some ((200, respPayload), c3t3.1, c3t3.2)
  | none => GETmiss fetchFn now url ref c1 t1

/-- `(hu, fu)` is the only matched head/fragment pair of the site: every
start token that equals some end token belongs to the pair. -/
def onlyPair (st : SiteStore) (hu fu : String) : Prop :=
  ∀ s ∈ startsOf st, ∀ e ∈ endsOf st, s.2 = e.2 → s.1 = hu ∧ e.1 = fu

instance (st : SiteStore) (hu fu : String) : Decidable (onlyPair st hu fu) := by
  unfold onlyPair
  infer_instance

/-! ## Snapshot persistence (`saveCache` / `loadCache`, part_000 lines 138-175)

The snapshot artifact is `PREFIX + JSON.stringify(cache[referrer]) + SUFFIX`.
The loader takes the substring from `PREFIX.length` to `lastIndexOf('}') + 1`,
trims it, and JSON-parses it.  Serialisation and parsing are modelled at the
character-list level; the parser models `JSON.parse` restricted to the
snapshot schema (string-keyed objects of `records` string arrays and
`offset` strings), with full JSON string escaping. -/

def PREFIX : String := "export const cache = "

def SUFFIX : String := ";\nwindow.airtableCache = cache;"

def hexDigitChar (n : Nat) : Char :=
  if n < 10 then Char.ofNat (48 + n) else Char.ofNat (87 + n)

def hexVal (c : Char) : Option Nat :=
  if '0' ≤ c ∧ c ≤ '9' then some (c.toNat - 48)
  else if 'a' ≤ c ∧ c ≤ 'f' then some (c.toNat - 87)
  else if 'A' ≤ c ∧ c ≤ 'F' then some (c.toNat - 55)
  else none

/-- JSON string escaping, as `JSON.stringify` performs it on each character. -/
def escapeChar (c : Char) : List Char :=
  if c = '"' then ['\\', '"']
  else if c = '\\' then ['\\', '\\']
  else if c = '\x08' then ['\\', 'b']
  else if c = '\t' then ['\\', 't']
  else if c = '\n' then ['\\', 'n']
  else if c = '\x0c' then ['\\', 'f']
  else if c = '\r' then ['\\', 'r']
  else if c.toNat < 32 then
    ['\\', 'u', '0', '0', hexDigitChar (c.toNat / 16), hexDigitChar (c.toNat % 16)]
  else [c]

def escapeList : List Char → List Char
  | [] => []
  | c :: cs => escapeChar c ++ escapeList cs

def jquote (s : List Char) : List Char := '"' :: (escapeList s ++ ['"'])

def recordsKey : List Char := ['r', 'e', 'c', 'o', 'r', 'd', 's']

def offsetKey : List Char := ['o', 'f', 'f', 's', 'e', 't']

def stringifyList {α : Type} (f : α → List Char) : List α → List Char
  | [] => []
  | [a] => f a
  | a :: b :: rest => f a ++ ',' :: stringifyList f (b :: rest)

def recordsField (rs : List String) : List Char :=
  jquote recordsKey ++ ':' :: '[' :: (stringifyList (fun r => jquote r.data) rs ++ [']'])

def offsetField (o : String) : List Char := jquote offsetKey ++ ':' :: jquote o.data

/-- `JSON.stringify` of one payload object: fields in insertion order
(`records` first, then `offset`), absent fields omitted. -/
def stringifyPayload (p : Payload) : List Char :=
  '{' :: ((match p.records, p.offset with
    | none, none => ([] : List Char)
    | some rs, none => recordsField rs
    | none, some o => offsetField o
    | some rs, some o => recordsField rs ++ ',' :: offsetField o) ++ ['}'])

def entryChars (e : String × Payload) : List Char :=
  jquote e.1.data ++ ':' :: stringifyPayload e.2

def stringifyStore (st : SiteStore) : List Char :=
  '{' :: (stringifyList entryChars st ++ ['}'])

/-- `saveCache` file contents: `PREFIX + JSON.stringify(...) + SUFFIX`. -/
def saveFileChars (st : SiteStore) : List Char :=
  PREFIX.data ++ stringifyStore st ++ SUFFIX.data

def unescapeChar (c : Char) : Option Char :=
  if c = '"' then some '"'
  else if c = '\\' then some '\\'
  else if c = '/' then some '/'
  else if c = 'b' then some '\x08'
  else if c = 't' then some '\t'
  else if c = 'n' then some '\n'
  else if c = 'f' then some '\x0c'
  else if c = 'r' then some '\r'
  else none

/-- Decode the four hex digits of a `\uXXXX` escape. -/
def decodeHex4 : List Char → Option (Char × List Char)
  | a :: b :: c2 :: d :: rest3 =>
    match hexVal a, hexVal b, hexVal c2, hexVal d with
    | some va, some vb, some vc, some vd =>
      some (Char.ofNat (((va * 16 + vb) * 16 + vc) * 16 + vd), rest3)
    | _, _, _, _ => none
  | _ => none

/-- Decode one JSON escape sequence (after the backslash). -/
def decodeEscape : List Char → Option (Char × List Char)
  | [] => none
  | e :: rest2 =>
    if e = 'u' then decodeHex4 rest2
    else (unescapeChar e).map (fun u => (u, rest2))

/-- JSON string body parser (after the opening quote has been consumed):
reads up to the unescaped closing quote, decoding escapes. -/
def parseStringBody : Nat → List Char → Option (List Char × List Char)
  | 0, _ => none
  | _+1, [] => none
  | fuel+1, c :: rest =>
    if c = '"' then some ([], rest)
    else if c = '\\' then
      match decodeEscape rest with
      | some ur => (parseStringBody fuel ur.2).map (fun pr => (ur.1 :: pr.1, pr.2))
      | none => none
    else (parseStringBody fuel rest).map (fun pr => (c :: pr.1, pr.2))

def parseRecordsItems : Nat → List Char → Option (List String × List Char)
  | 0, _ => none
  | fuel+1, cs =>
    match cs with
    | '"' :: rest =>
      match parseStringBody (rest.length + 1) rest with
      | some sr =>
        match sr.2 with
        | ',' :: rest3 =>
          (parseRecordsItems fuel rest3).map (fun pr => (String.mk sr.1 :: pr.1, pr.2))
        | ']' :: rest3 => some ([String.mk sr.1], rest3)
        | _ => none
      | none => none
    | _ => none

/-- Parse a records array after the opening bracket: an immediate closing
bracket yields the empty collection, anything else the item list. -/
def parseRecordsArray (fuel : Nat) (cs : List Char) : Option (List String × List Char) :=
  if cs.head? = some ']' then some ([], cs.tail) else parseRecordsItems fuel cs

/-- Parse the fields of one payload object (after the opening brace),
restricted to the snapshot schema. -/
def parseFieldList : Nat → Payload → List Char → Option (Payload × List Char)
  | 0, _, _ => none
  | fuel+1, acc, cs =>
    match cs with
    | '"' :: rest =>
      match parseStringBody (rest.length + 1) rest with
      | some kr =>
        match kr.2 with
        | ':' :: rest2 =>
          if kr.1 = recordsKey then
            match rest2 with
            | '[' :: rest3 =>
              match parseRecordsArray (rest3.length + 1) rest3 with
              | some rr =>
                match rr.2 with
                | ',' :: r5 => parseFieldList fuel ⟨some rr.1, acc.offset⟩ r5
                | '}' :: r5 => some (⟨some rr.1, acc.offset⟩, r5)
                | _ => none
              | none => none
            | _ => none
          else if kr.1 = offsetKey then
            match rest2 with
            | '"' :: rest3 =>
              match parseStringBody (rest3.length + 1) rest3 with
              | some orr =>
                match orr.2 with
                | ',' :: r5 => parseFieldList fuel ⟨acc.records, some (String.mk orr.1)⟩ r5
                | '}' :: r5 => some (⟨acc.records, some (String.mk orr.1)⟩, r5)
                | _ => none
              | none => none
            | _ => none
          else none
        | _ => none
      | none => none
    | _ => none

def parsePayload (cs : List Char) : Option (Payload × List Char) :=
  match cs with
  | '{' :: '}' :: rest => some (⟨none, none⟩, rest)
  | '{' :: rest => parseFieldList 3 ⟨none, none⟩ rest
  | _ => none

def parseEntries : Nat → List Char → Option (SiteStore × List Char)
  | 0, _ => none
  | fuel+1, cs =>
    match cs with
    | '"' :: rest =>
      match parseStringBody (rest.length + 1) rest with
      | some kr =>
        match kr.2 with
        | ':' :: rest2 =>
          match parsePayload rest2 with
          | some pr =>
            match pr.2 with
            | ',' :: rest4 =>
              (parseEntries fuel rest4).map (fun sr => ((String.mk kr.1, pr.1) :: sr.1, sr.2))
            | _ => some ([(String.mk kr.1, pr.1)], pr.2)
          | none => none
        | _ => none
      | none => none
    | _ => none

/-- Finish parsing the snapshot object: expect the closing brace and the
end of the region (`JSON.parse` rejects trailing input). -/
def parseStoreTail (res : Option (SiteStore × List Char)) : Option SiteStore :=
  match res with
  | some sr =>
    match sr.2 with
    | '}' :: rest2 => if rest2 = [] then some sr.1 else none
    | _ => none
  | none => none

def parseStore (cs : List Char) : Option SiteStore :=
  match cs with
  | '{' :: '}' :: rest => if rest = [] then some ([] : SiteStore) else none
  | '{' :: rest => parseStoreTail (parseEntries (rest.length + 1) rest)
  | _ => none

/-- Models `String.prototype.lastIndexOf` (`none` for `-1`). -/
def lastIdx (c : Char) : List Char → Option Nat
  | [] => none
  | x :: xs =>
    match lastIdx c xs with
    | some i => some (i + 1)
    | none => if x = c then some 0 else none

def isWS (c : Char) : Bool :=
  if c = ' ' then true
  else if c = '\t' then true
  else if c = '\n' then true
  else if c = '\r' then true
  else false

def trimChars (l : List Char) : List Char :=
  ((l.dropWhile isWS).reverse.dropWhile isWS).reverse

/-- `loadCache` body (part_000 lines 157-160): the substring from
`PREFIX.length` to `lastIndexOf('}') + 1`, trimmed, then JSON-parsed as
the snapshot mapping.  `none` models a `JSON.parse` throw. -/
def loadFileChars (content : List Char) : Option SiteStore :=
  let cut := match lastIdx '}' content with
    | some i => i + 1
    | none => 0
  parseStore (trimChars ((content.take cut).drop PREFIX.data.length))

set_option maxRecDepth 10000

/-- Claim C2: the code contradicts the spec's forgetting pass.  Site
`"site"` holds a fresh entry `https://a?x=1` (the refresh target, whose
fetch succeeds) and an entry `https://a?x=2` whose age exceeds
`FORGET_INTERVAL`.  After `refreshCache` runs on `"site"`, the stale
identifier is STILL present in the site's entry store and timestamp map,
because the pass executes `delete cache[key]` / `delete timestamps[key]`
on the top-level maps instead of `cache[referrerHostname][key]`; for the
same reason an unrelated site whose slug happens to equal the stale URL
key is deleted wholesale. -/
theorem claim_c2_bug :
    refreshCacheM
      (fun u => if u = "https://a?x=1" then some ⟨true, 200, ⟨some ["r"], none⟩⟩ else none)
      1 604800050 "https://a?x=1" "site"
      [("site", [("https://a?x=1", ⟨some ["a"], none⟩), ("https://a?x=2", ⟨some ["b"], none⟩)]),
       ("https://a?x=2", [("z", ⟨some ["c"], none⟩)])]
      [("site", [("https://a?x=1", 40), ("https://a?x=2", 10)]),
       ("https://a?x=2", [("z", 604800050)])] =
      ([("site", [("https://a?x=1", ⟨some ["r"], none⟩), ("https://a?x=2", ⟨some ["b"], none⟩)])],
       [("site", [("https://a?x=1", 604800050), ("https://a?x=2", 10)])], true) := by
  rfl

/-- Claim C4: for every identifier whose query string carries an offset
(continuation) parameter, `refreshCache` short-circuits: no upstream fetch
is performed (the result is the same for every fetch oracle), and the
entry store, the timestamps and the snapshot are unchanged (no
`saveCache` call happens). -/
theorem claim_c4 (url : String) (v : String) (hq : queryOffset url = some v)
    (fetchFn : FetchFn) (fuel now : Nat) (ref : String) (c : Cache) (t : Times) :
    refreshCacheM fetchFn fuel now url ref c t = (c, t, false) := by
  simp [refreshCacheM, hq]

/-- Claim C4 witness: a concrete paginated-fragment identifier is left
untouched by the refresh cycle. -/
theorem claim_c4_witness :
    refreshCacheM (fun _ => some ⟨true, 200, ⟨some ["x"], none⟩⟩) 3 1000
      "https://a?offset=T1" "site" [("site", [("https://a?offset=T1", ⟨some ["a"], none⟩)])]
      [("site", [("https://a?offset=T1", 1)])] =
      ([("site", [("https://a?offset=T1", ⟨some ["a"], none⟩)])],
       [("site", [("https://a?offset=T1", 1)])], false) :=
  claim_c4 "https://a?offset=T1" "T1" (by decide)
    (fun _ => some ⟨true, 200, ⟨some ["x"], none⟩⟩) 3 1000 "site"
    [("site", [("https://a?offset=T1", ⟨some ["a"], none⟩)])]
    [("site", [("https://a?offset=T1", 1)])]

/-! ## Association-list and list lemmas -/

theorem alookup_eq_none_iff {α : Type} (k : String) (l : List (String × α)) :
    alookup k l = none ↔ k ∉ l.map Prod.fst := by
  induction l with
  | nil => simp [alookup]
  | cons e rest ih =>
    by_cases h : e.1 = k
    · subst h
      simp [alookup]
    · rw [alookup, if_neg h, ih, List.map_cons]
      simp only [List.mem_cons, not_or]
      constructor
      · intro hk
        exact ⟨fun h1 => h h1.symm, hk⟩
      · intro hk
        exact hk.2

theorem alookup_mem {α : Type} {k : String} {v : α} {l : List (String × α)}
    (h : alookup k l = some v) : (k, v) ∈ l := by
  induction l with
  | nil => simp [alookup] at h
  | cons e rest ih =>
    by_cases he : e.1 = k
    · rw [alookup, if_pos he] at h
      have h2 : e.2 = v := by injection h
      subst h2
      subst he
      exact List.mem_cons_self e rest
    · rw [alookup, if_neg he] at h
      exact List.mem_cons_of_mem _ (ih h)

theorem alookup_aset_self {α : Type} (k : String) (v : α) (l : List (String × α)) :
    alookup k (aset k v l) = some v := by
  induction l with
  | nil => simp [aset, alookup]
  | cons e rest ih =>
    by_cases he : e.1 = k
    · simp [aset, he, alookup]
    · simp [aset, he, alookup, ih]

theorem alookup_aset_ne {α : Type} {k k' : String} (h : k' ≠ k) (v : α)
    (l : List (String × α)) : alookup k' (aset k v l) = alookup k' l := by
  have hkk : ¬(k = k') := fun hk => h hk.symm
  induction l with
  | nil => simp [aset, alookup, hkk]
  | cons e rest ih =>
    by_cases he : e.1 = k
    · subst he
      simp [aset, alookup, hkk]
    · simp [aset, he, alookup, ih]

theorem alookup_aerase_ne {α : Type} {k k' : String} (h : k' ≠ k)
    (l : List (String × α)) : alookup k' (aerase k l) = alookup k' l := by
  have hkk : ¬(k = k') := fun hk => h hk.symm
  induction l with
  | nil => rfl
  | cons e rest ih =>
    by_cases he : e.1 = k
    · subst he
      simp [aerase, alookup, hkk]
    · simp [aerase, he, alookup, ih]

theorem map_fst_aset_mem {α : Type} {k : String} (v : α) {l : List (String × α)}
    (h : k ∈ l.map Prod.fst) : (aset k v l).map Prod.fst = l.map Prod.fst := by
  induction l with
  | nil => simp at h
  | cons e rest ih =>
    by_cases he : e.1 = k
    · simp [aset, he]
    · have hmem : k ∈ e.1 :: rest.map Prod.fst := by rw [← List.map_cons]; exact h
      have : k ∈ rest.map Prod.fst := by
        rcases List.mem_cons.mp hmem with h1 | h1
        · exact absurd h1.symm he
        · exact h1
      simp [aset, he, ih this]

theorem map_fst_aset_not_mem {α : Type} {k : String} (v : α) {l : List (String × α)}
    (h : k ∉ l.map Prod.fst) : (aset k v l).map Prod.fst = l.map Prod.fst ++ [k] := by
  induction l with
  | nil => simp [aset]
  | cons e rest ih =>
    have he : e.1 ≠ k := by
      intro hk
      exact h (by simp [hk])
    have : k ∉ rest.map Prod.fst := fun hk => h (by simp [hk])
    simp [aset, he, ih this]

theorem mem_aset {α : Type} {e : String × α} {k : String} {v : α} {l : List (String × α)}
    (h : e ∈ aset k v l) : e = (k, v) ∨ e ∈ l := by
  induction l with
  | nil => exact Or.inl (List.mem_singleton.mp (by simpa [aset] using h))
  | cons x rest ih =>
    by_cases hx : x.1 = k
    · rcases List.mem_cons.mp (by simpa [aset, hx] using h) with h1 | h1
      · exact Or.inl h1
      · exact Or.inr (List.mem_cons_of_mem _ h1)
    · rcases List.mem_cons.mp (by simpa [aset, hx] using h) with h1 | h1
      · exact Or.inr (by simp [h1])
      · rcases ih h1 with h2 | h2
        · exact Or.inl h2
        · exact Or.inr (List.mem_cons_of_mem _ h2)

theorem alookup_reconstruct (keys : List String) (objs : List (String × Payload))
    (hk : keys.Nodup) (k : String) :
    alookup k (keys.filterMap (fun u => (alookup u objs).map (fun p => (u, p)))) =
      if k ∈ keys then alookup k objs else none := by
  induction keys with
  | nil => simp [alookup]
  | cons a rest ih =>
    have ha : a ∉ rest := (List.nodup_cons.mp hk).1
    have hrest := ih (List.nodup_cons.mp hk).2
    cases halo : alookup a objs with
    | none =>
      rw [List.filterMap_cons_none (by simp [halo])]
      by_cases hka : k = a
      · subst hka
        simp [hrest, ha, halo]
      · simp [hrest, hka]
    | some p =>
      have hcs : ((a :: rest).filterMap fun u => (alookup u objs).map (fun p => (u, p)))
          = (a, p) :: rest.filterMap (fun u => (alookup u objs).map (fun p => (u, p))) :=
        List.filterMap_cons_some (by simp [halo])
      by_cases hka : k = a
      · subst hka
        rw [hcs, alookup, if_pos rfl]
        simp [halo]
      · rw [hcs, alookup, if_neg (fun h => hka h.symm), hrest]
        simp [hka]

theorem reconstruct_self (st : SiteStore) (hnd : (st.map Prod.fst).Nodup) :
    (st.map Prod.fst).filterMap (fun u => (alookup u st).map (fun p => (u, p))) = st := by
  induction st with
  | nil => rfl
  | cons e rest ih =>
    have hnd2 : e.1 ∉ rest.map Prod.fst ∧ (rest.map Prod.fst).Nodup := by
      rw [List.map_cons] at hnd
      exact List.nodup_cons.mp hnd
    have he : e.1 ∉ rest.map Prod.fst := hnd2.1
    have hr := ih hnd2.2
    have hcongr : ∀ u ∈ rest.map Prod.fst,
        ((alookup u (e :: rest)).map (fun p => (u, p))) =
          ((alookup u rest).map (fun p => (u, p))) := by
      intro u hu
      have hue : e.1 ≠ u := fun h => he (h ▸ hu)
      rw [alookup, if_neg hue]
    calc ((e :: rest).map Prod.fst).filterMap (fun u => (alookup u (e :: rest)).map (fun p => (u, p)))
        = (e.1, e.2) :: (rest.map Prod.fst).filterMap
            (fun u => (alookup u (e :: rest)).map (fun p => (u, p))) := by
          simp [alookup]
      _ = (e.1, e.2) :: (rest.map Prod.fst).filterMap
            (fun u => (alookup u rest).map (fun p => (u, p))) := by
          rw [List.filterMap_congr]
          intro u hu
          exact hcongr u hu
      _ = e :: rest := by rw [hr]

theorem find?_eq_some_of_unique {α : Type} {p : α → Bool} {l : List α} {a : α}
    (ha : a ∈ l) (hpa : p a = true) (huniq : ∀ b ∈ l, p b = true → b = a) :
    l.find? p = some a := by
  induction l with
  | nil => cases ha
  | cons x xs ih =>
    by_cases hx : p x = true
    · have hxa : x = a := huniq x (List.mem_cons_self x xs) hx
      subst hxa
      simp [List.find?, hpa]
    · have hx' : p x = false := by
        cases hpx : p x
        · rfl
        · exact absurd hpx hx
      rw [List.find?, hx']
      have hax : a ∈ xs := by
        rcases List.mem_cons.mp ha with h1 | h1
        · exact absurd (h1 ▸ hpa) hx
        · exact h1
      exact ih hax (fun b hb hpb => huniq b (List.mem_cons_of_mem _ hb) hpb)

theorem foldl_fix {α β : Type} {f : α → β → α} {l : List β} {m : α}
    (h : ∀ b ∈ l, f m b = m) : l.foldl f m = m := by
  induction l with
  | nil => rfl
  | cons x xs ih =>
    rw [List.foldl_cons, h x (List.mem_cons_self x xs)]
    exact ih (fun b hb => h b (List.mem_cons_of_mem x hb))

/-! ## Merge lemmas -/

theorem startsOf_map_fst_sublist (st : SiteStore) :
    ((startsOf st).map Prod.fst).Sublist (st.map Prod.fst) := by
  induction st with
  | nil => simp [startsOf]
  | cons e rest ih =>
    by_cases h : offsetTruthy e.2.offset
    · simpa [startsOf, List.filterMap_cons, h] using ih.cons₂ e.1
    · simpa [startsOf, List.filterMap_cons, h] using ih.cons e.1

theorem endsOf_map_fst_sublist (st : SiteStore) :
    ((endsOf st).map Prod.fst).Sublist (st.map Prod.fst) := by
  induction st with
  | nil => simp [endsOf]
  | cons e rest ih =>
    cases h : queryOffset e.1 with
    | some tok => simpa [endsOf, List.filterMap_cons, h] using ih.cons₂ e.1
    | none => simpa [endsOf, List.filterMap_cons, h] using ih.cons e.1

theorem mem_startsOf {st : SiteStore} {u : String} {p : Payload} {tok : String}
    (h : (u, p) ∈ st) (hofs : p.offset = some tok) (ht : tok ≠ "") :
    (u, tok) ∈ startsOf st :=
  List.mem_filterMap.mpr ⟨(u, p), h, by simp [offsetTruthy, hofs, ht]⟩

theorem mem_endsOf {st : SiteStore} {u : String} {p : Payload} {tok : String}
    (h : (u, p) ∈ st) (hq : queryOffset u = some tok) : (u, tok) ∈ endsOf st :=
  List.mem_filterMap.mpr ⟨(u, p), h, by simp [hq]⟩

theorem mergeStep_no_match {ends : List (String × String)} {s : String × String}
    (h : ends.find? (fun e => e.2 == s.2) = none) (m : MState) :
    mergeStep ends m s = m := by
  simp [mergeStep, h]

/-- Central computation: on a site whose only matched head/fragment pair is
`(hu, fu)`, exactly one merge-loop iteration acts; it merges when both
record collections are present and is a no-op otherwise. -/
theorem runMergeSt_only_pair
    (st : SiteStore) (tm : SiteTimes) (hu fu : String) (hp fp : Payload) (tok : String)
    (hnd : (st.map Prod.fst).Nodup) (hne : hu ≠ fu)
    (hh : alookup hu st = some hp) (hf : alookup fu st = some fp)
    (hofs : hp.offset = some tok) (htok : tok ≠ "") (hq : queryOffset fu = some tok)
    (honly : onlyPair st hu fu) :
    runMergeSt st tm =
      if hp.records.isSome && fp.records.isSome then
        ⟨aset hu ⟨some (hp.records.getD [] ++ fp.records.getD []),
                  if offsetTruthy fp.offset then fp.offset else none⟩ st,
         (st.map Prod.fst).erase fu, aerase fu tm, true⟩
      else ⟨st, st.map Prod.fst, tm, false⟩ := by
  have hmh : (hu, hp) ∈ st := alookup_mem hh
  have hmf : (fu, fp) ∈ st := alookup_mem hf
  have hs : (hu, tok) ∈ startsOf st := mem_startsOf hmh hofs htok
  have hef : (fu, tok) ∈ endsOf st := mem_endsOf hmf hq
  have hndS : ((startsOf st).map Prod.fst).Nodup := (startsOf_map_fst_sublist st).nodup hnd
  obtain ⟨L1, L2, hsplit⟩ := List.append_of_mem hs
  have hmapsplit : (startsOf st).map Prod.fst = L1.map Prod.fst ++ hu :: L2.map Prod.fst := by
    rw [hsplit]
    simp
  rw [hmapsplit] at hndS
  have hdisj := (List.nodup_append.mp hndS).2.2
  have hndmid := (List.nodup_append.mp hndS).2.1
  have hL1 : ∀ s ∈ L1, s.1 ≠ hu := by
    intro s hsl heq
    exact hdisj (heq ▸ List.mem_map_of_mem Prod.fst hsl) (List.mem_cons_self _ _)
  have hL2 : ∀ s ∈ L2, s.1 ≠ hu := by
    intro s hsl heq
    exact (List.nodup_cons.mp hndmid).1 (heq ▸ List.mem_map_of_mem Prod.fst hsl)
  have hnomatch : ∀ s : String × String, s ∈ startsOf st → s.1 ≠ hu →
      (endsOf st).find? (fun e => e.2 == s.2) = none := by
    intro s hsmem hsne
    apply List.find?_eq_none.mpr
    intro e he hbe
    exact hsne (honly s hsmem e he ((beq_iff_eq).mp hbe).symm).1
  have hfind : (endsOf st).find? (fun e => e.2 == (hu, tok).2) = some (fu, tok) := by
    apply find?_eq_some_of_unique hef (by simp)
    intro b hb hbe
    have hb2 : b.2 = tok := (beq_iff_eq).mp hbe
    have hb1 : b.1 = fu := (honly (hu, tok) hs b hb hb2.symm).2
    calc b = (b.1, b.2) := rfl
      _ = (fu, tok) := by rw [hb1, hb2]
  have hL1mem : ∀ s ∈ L1, s ∈ startsOf st := by
    intro s hsl
    rw [hsplit]
    exact List.mem_append.mpr (Or.inl hsl)
  have hL2mem : ∀ s ∈ L2, s ∈ startsOf st := by
    intro s hsl
    rw [hsplit]
    exact List.mem_append.mpr (Or.inr (List.mem_cons_of_mem _ hsl))
  have hcontains : (((st.map Prod.fst).erase fu).contains hu) = true := by
    have : hu ∈ (st.map Prod.fst).erase fu :=
      (List.mem_erase_of_ne hne).mpr (List.mem_map_of_mem Prod.fst hmh)
    simpa [List.contains] using this
  have hstep : mergeStep (endsOf st) ⟨st, st.map Prod.fst, tm, false⟩ (hu, tok) =
      (if hp.records.isSome && fp.records.isSome then
        ⟨aset hu ⟨some (hp.records.getD [] ++ fp.records.getD []),
                  if offsetTruthy fp.offset then fp.offset else none⟩ st,
         (st.map Prod.fst).erase fu, aerase fu tm, true⟩
      else ⟨st, st.map Prod.fst, tm, false⟩) := by
    simp only [mergeStep, hfind]
    simp only [hh, hf]
    by_cases hrec : (hp.records.isSome && fp.records.isSome) = true
    · simp only [hrec, if_true, hcontains]
    · simp only [Bool.not_eq_true] at hrec
      simp only [hrec, Bool.false_eq_true, if_false]
  unfold runMergeSt
  rw [hsplit, List.foldl_append, List.foldl_cons,
    foldl_fix (fun s hsl => mergeStep_no_match (hnomatch s (hL1mem s hsl) (hL1 s hsl)) _),
    hstep]
  by_cases hrec : (hp.records.isSome && fp.records.isSome) = true
  · simp only [hrec, if_true]
    exact foldl_fix (fun s hsl => mergeStep_no_match (hnomatch s (hL2mem s hsl) (hL2 s hsl)) _)
  · simp only [Bool.not_eq_true] at hrec
    simp only [hrec, Bool.false_eq_true, if_false]
    exact foldl_fix (fun s hsl => mergeStep_no_match (hnomatch s (hL2mem s hsl) (hL2 s hsl)) _)

theorem alookup_mergedStore (m : MState) (hk : m.keys.Nodup) (k : String) :
    alookup k (mergedStore m) = if k ∈ m.keys then alookup k m.objs else none :=
  alookup_reconstruct m.keys m.objs hk k

/-- Claim C1 counterexample: a two-link pagination chain.  The head
`u?x=1` (token `T1`, records `[a]`) is matched by fragment `u?offset=T1`
(records `[b]`, token `T2`), which is itself matched by fragment
`u?offset=T2` (records `[c]`).  Both pairs are matched head/fragment pairs
with record collections, yet after `mergePaginatedData` the fragment
`u?offset=T1` is NOT absent from the store: its loop iteration re-assigns
`cache[start.url] = start.data` after the first iteration deleted it, so
it is resurrected with payload `{records: [b, c]}`.  This refutes the
claim's universally quantified "the fragment's identifier is absent". -/
theorem claim_c1_counterexample :
    runMerge
      [("u?x=1", ⟨some ["a"], some "T1"⟩), ("u?offset=T1", ⟨some ["b"], some "T2"⟩),
       ("u?offset=T2", ⟨some ["c"], none⟩)]
      [("u?x=1", 1), ("u?offset=T1", 2), ("u?offset=T2", 3)] =
      ([("u?x=1", ⟨some ["a", "b"], some "T2"⟩), ("u?offset=T1", ⟨some ["b", "c"], none⟩)],
       [("u?x=1", 1)], true) := by
  rfl

/-- Claim C1 (amended): for a site whose ONLY matched head/fragment pair
is `(hu, fu)` (with `hu ≠ fu`), both payloads carrying a records
collection, after `mergePaginatedData` the fragment's identifier is absent
from the site's store, the head's records collection equals the head's
original records followed by the fragment's records, and the head's
offset token equals the fragment payload's offset token (absent when the
fragment has none, an empty token counting as none per the code's
truthiness test). -/
theorem claim_c1 (st : SiteStore) (tm : SiteTimes) (hu fu : String) (hp fp : Payload)
    (tok : String) (hrs frs : List String)
    (hnd : (st.map Prod.fst).Nodup) (hne : hu ≠ fu)
    (hh : alookup hu st = some hp) (hf : alookup fu st = some fp)
    (hofs : hp.offset = some tok) (htok : tok ≠ "") (hq : queryOffset fu = some tok)
    (hhr : hp.records = some hrs) (hfr : fp.records = some frs)
    (honly : onlyPair st hu fu) :
    alookup fu (runMerge st tm).1 = none ∧
    alookup hu (runMerge st tm).1 =
      some ⟨some (hrs ++ frs), if offsetTruthy fp.offset then fp.offset else none⟩ := by
  have hmaster := runMergeSt_only_pair st tm hu fu hp fp tok hnd hne hh hf hofs htok hq honly
  rw [if_pos (by simp [hhr, hfr])] at hmaster
  have hkeysnd : ((st.map Prod.fst).erase fu).Nodup := List.Nodup.erase fu hnd
  have hhu_mem : hu ∈ (st.map Prod.fst).erase fu :=
    (List.mem_erase_of_ne hne).mpr (List.mem_map_of_mem Prod.fst (alookup_mem hh))
  constructor
  · show alookup fu (mergedStore (runMergeSt st tm)) = none
    rw [hmaster, alookup_mergedStore _ hkeysnd]
    simp [List.Nodup.mem_erase_iff hnd]
  · show alookup hu (mergedStore (runMergeSt st tm)) =
      some ⟨some (hrs ++ frs), if offsetTruthy fp.offset then fp.offset else none⟩
    rw [hmaster, alookup_mergedStore _ hkeysnd, if_pos hhu_mem, alookup_aset_self]
    simp [hhr, hfr]

/-- Claim C1 witness: one head and one fragment merge as described. -/
theorem claim_c1_witness :
    alookup "h?offset=T1"
      (runMerge [("h?x=1", ⟨some ["a"], some "T1"⟩), ("h?offset=T1", ⟨some ["b"], none⟩)]
        [("h?x=1", 3), ("h?offset=T1", 4)]).1 = none ∧
    alookup "h?x=1"
      (runMerge [("h?x=1", ⟨some ["a"], some "T1"⟩), ("h?offset=T1", ⟨some ["b"], none⟩)]
        [("h?x=1", 3), ("h?offset=T1", 4)]).1 = some ⟨some ["a", "b"], none⟩ := by
  have h := claim_c1
    [("h?x=1", ⟨some ["a"], some "T1"⟩), ("h?offset=T1", ⟨some ["b"], none⟩)]
    [("h?x=1", 3), ("h?offset=T1", 4)] "h?x=1" "h?offset=T1"
    ⟨some ["a"], some "T1"⟩ ⟨some ["b"], none⟩ "T1" ["a"] ["b"]
    (by decide) (by decide) (by rfl) (by rfl) (by rfl) (by decide) (by rfl)
    (by rfl) (by rfl) (by decide)
  simpa using h

/-- Claim C7 counterexample: head `m?x=1` has token `T` but no records —
the claim says the matched fragment `m?offset=T` is neither deleted nor
mutated.  But a second head `m?x=2` with the same token `T` and a records
collection also matches the fragment, merges it and deletes it, so after
`mergePaginatedData` the fragment is gone. -/
theorem claim_c7_counterexample :
    runMerge
      [("m?x=1", ⟨none, some "T"⟩), ("m?x=2", ⟨some ["a"], some "T"⟩),
       ("m?offset=T", ⟨some ["b"], none⟩)]
      [("m?x=1", 1), ("m?x=2", 2), ("m?offset=T", 3)] =
      ([("m?x=1", ⟨none, some "T"⟩), ("m?x=2", ⟨some ["a", "b"], none⟩)],
       [("m?x=1", 1), ("m?x=2", 2)], true) := by
  rfl

/-- Claim C7 (amended): for a site whose ONLY matched head/fragment pair
is `(hu, fu)` (with `hu ≠ fu`), if the head's payload lacks a records
collection or the fragment's payload lacks one, `mergePaginatedData`
deletes neither entry and mutates neither payload: the site's store and
timestamp map are unchanged and no snapshot is written. -/
theorem claim_c7 (st : SiteStore) (tm : SiteTimes) (hu fu : String) (hp fp : Payload)
    (tok : String)
    (hnd : (st.map Prod.fst).Nodup) (hne : hu ≠ fu)
    (hh : alookup hu st = some hp) (hf : alookup fu st = some fp)
    (hofs : hp.offset = some tok) (htok : tok ≠ "") (hq : queryOffset fu = some tok)
    (hmal : hp.records = none ∨ fp.records = none)
    (honly : onlyPair st hu fu) :
    runMerge st tm = (st, tm, false) := by
  have hmaster := runMergeSt_only_pair st tm hu fu hp fp tok hnd hne hh hf hofs htok hq honly
  rw [if_neg (by rcases hmal with h | h <;> simp [h])] at hmaster
  have hid : mergedStore ⟨st, st.map Prod.fst, tm, false⟩ = st := reconstruct_self st hnd
  show (mergedStore (runMergeSt st tm), (runMergeSt st tm).times, (runMergeSt st tm).saved) =
    (st, tm, false)
  rw [hmaster, hid]

/-- Claim C7 witness: a malformed head skips the merge and leaves both
entries untouched. -/
theorem claim_c7_witness :
    runMerge [("h?x=1", ⟨none, some "T1"⟩), ("h?offset=T1", ⟨some ["b"], none⟩)]
      [("h?x=1", 3), ("h?offset=T1", 4)] =
      ([("h?x=1", ⟨none, some "T1"⟩), ("h?offset=T1", ⟨some ["b"], none⟩)],
       [("h?x=1", 3), ("h?offset=T1", 4)], false) := by
  have h := claim_c7
    [("h?x=1", ⟨none, some "T1"⟩), ("h?offset=T1", ⟨some ["b"], none⟩)]
    [("h?x=1", 3), ("h?offset=T1", 4)] "h?x=1" "h?offset=T1"
    ⟨none, some "T1"⟩ ⟨some ["b"], none⟩ "T1"
    (by decide) (by decide) (by rfl) (by rfl) (by rfl) (by decide) (by rfl)
    (Or.inl rfl) (by decide)
  exact h

/-- Claim C9 counterexample: a chain where the head of a successful merge
is itself consumed by an earlier head.  Pair (`v?offset=T0`, `v?offset=T1`)
merges successfully (records `[b] ++ [c]`), yet after `mergePaginatedData`
the head `v?offset=T0` has LOST its timestamp (it was deleted by the merge
of head `v?x=1` and then re-added without one), so its staleness clock no
longer dates from its original fetch. -/
theorem claim_c9_counterexample :
    runMerge
      [("v?x=1", ⟨some ["g"], some "T0"⟩), ("v?offset=T0", ⟨some ["b"], some "T1"⟩),
       ("v?offset=T1", ⟨some ["c"], none⟩)]
      [("v?x=1", 1), ("v?offset=T0", 2), ("v?offset=T1", 3)] =
      ([("v?x=1", ⟨some ["g", "b"], some "T1"⟩), ("v?offset=T0", ⟨some ["b", "c"], none⟩)],
       [("v?x=1", 1)], true) := by
  rfl

/-- Claim C9 (amended): for a site whose ONLY matched head/fragment pair
is `(hu, fu)` (with `hu ≠ fu`), a successful merge leaves the head's
`lastUpdated` timestamp unchanged and the head's identifier present; every
entry other than the head and the fragment keeps its payload, and only the
fragment's timestamp entry is removed. -/
theorem claim_c9 (st : SiteStore) (tm : SiteTimes) (hu fu : String) (hp fp : Payload)
    (tok : String) (hrs frs : List String)
    (hnd : (st.map Prod.fst).Nodup) (hne : hu ≠ fu)
    (hh : alookup hu st = some hp) (hf : alookup fu st = some fp)
    (hofs : hp.offset = some tok) (htok : tok ≠ "") (hq : queryOffset fu = some tok)
    (hhr : hp.records = some hrs) (hfr : fp.records = some frs)
    (honly : onlyPair st hu fu) :
    alookup hu (runMerge st tm).2.1 = alookup hu tm ∧
    hu ∈ (runMerge st tm).1.map Prod.fst ∧
    (∀ k, k ≠ fu → k ≠ hu → alookup k (runMerge st tm).1 = alookup k st) ∧
    (∀ k, k ≠ fu → alookup k (runMerge st tm).2.1 = alookup k tm) := by
  have hmaster := runMergeSt_only_pair st tm hu fu hp fp tok hnd hne hh hf hofs htok hq honly
  rw [if_pos (by simp [hhr, hfr])] at hmaster
  have hkeysnd : ((st.map Prod.fst).erase fu).Nodup := List.Nodup.erase fu hnd
  have hhu_mem : hu ∈ (st.map Prod.fst).erase fu :=
    (List.mem_erase_of_ne hne).mpr (List.mem_map_of_mem Prod.fst (alookup_mem hh))
  refine ⟨?_, ?_, ?_, ?_⟩
  · show alookup hu (runMergeSt st tm).times = alookup hu tm
    rw [hmaster]
    exact alookup_aerase_ne hne tm
  · show hu ∈ (mergedStore (runMergeSt st tm)).map Prod.fst
    by_contra hmem
    have hnone : alookup hu (mergedStore (runMergeSt st tm)) = none :=
      (alookup_eq_none_iff _ _).mpr hmem
    rw [hmaster, alookup_mergedStore _ hkeysnd, if_pos hhu_mem, alookup_aset_self] at hnone
    cases hnone
  · intro k hkfu hkhu
    show alookup k (mergedStore (runMergeSt st tm)) = alookup k st
    rw [hmaster, alookup_mergedStore _ hkeysnd]
    by_cases hk : k ∈ (st.map Prod.fst).erase fu
    · rw [if_pos hk]
      exact alookup_aset_ne hkhu _ st
    · rw [if_neg hk]
      have : k ∉ st.map Prod.fst := fun hmem => hk ((List.mem_erase_of_ne hkfu).mpr hmem)
      exact ((alookup_eq_none_iff k st).mpr this).symm
  · intro k hkfu
    show alookup k (runMergeSt st tm).times = alookup k tm
    rw [hmaster]
    exact alookup_aerase_ne hkfu tm

/-- Claim C9 witness: a successful merge keeps the head's timestamp and
frame. -/
theorem claim_c9_witness :
    alookup "h?x=1"
      (runMerge [("h?x=1", ⟨some ["a"], some "T1"⟩), ("h?offset=T1", ⟨some ["b"], none⟩)]
        [("h?x=1", 3), ("h?offset=T1", 4)]).2.1 =
      alookup "h?x=1" [("h?x=1", 3), ("h?offset=T1", 4)] ∧
    "h?x=1" ∈
      (runMerge [("h?x=1", ⟨some ["a"], some "T1"⟩), ("h?offset=T1", ⟨some ["b"], none⟩)]
        [("h?x=1", 3), ("h?offset=T1", 4)]).1.map Prod.fst ∧
    (∀ k, k ≠ "h?offset=T1" → k ≠ "h?x=1" →
      alookup k
        (runMerge [("h?x=1", ⟨some ["a"], some "T1"⟩), ("h?offset=T1", ⟨some ["b"], none⟩)]
          [("h?x=1", 3), ("h?offset=T1", 4)]).1 =
      alookup k [("h?x=1", ⟨some ["a"], some "T1"⟩), ("h?offset=T1", ⟨some ["b"], none⟩)]) ∧
    (∀ k, k ≠ "h?offset=T1" →
      alookup k
        (runMerge [("h?x=1", ⟨some ["a"], some "T1"⟩), ("h?offset=T1", ⟨some ["b"], none⟩)]
          [("h?x=1", 3), ("h?offset=T1", 4)]).2.1 =
      alookup k [("h?x=1", 3), ("h?offset=T1", 4)]) := by
  exact claim_c9
    [("h?x=1", ⟨some ["a"], some "T1"⟩), ("h?offset=T1", ⟨some ["b"], none⟩)]
    [("h?x=1", 3), ("h?offset=T1", 4)] "h?x=1" "h?offset=T1"
    ⟨some ["a"], some "T1"⟩ ⟨some ["b"], none⟩ "T1" ["a"] ["b"]
    (by decide) (by decide) (by rfl) (by rfl) (by rfl) (by decide) (by rfl)
    (by rfl) (by rfl) (by decide)

/-! ## URL and refresh-cycle lemmas -/

theorem breakAt_eq_none {sep : Char} {l : List Char} (h : sep ∉ l) : breakAt sep l = none := by
  induction l with
  | nil => rfl
  | cons x xs ih =>
    have hx : ¬(x = sep) := fun he => h (he ▸ List.mem_cons_self x xs)
    rw [breakAt, if_neg hx, ih (fun hm => h (List.mem_cons_of_mem _ hm))]
    rfl

theorem breakAt_append {sep : Char} {A : List Char} (B : List Char) (h : sep ∉ A) :
    breakAt sep (A ++ sep :: B) = some (A, B) := by
  induction A with
  | nil => simp [breakAt]
  | cons x xs ih =>
    have hx : ¬(x = sep) := fun he => h (he ▸ List.mem_cons_self x xs)
    rw [List.cons_append, breakAt, if_neg hx, ih (fun hm => h (List.mem_cons_of_mem _ hm))]
    rfl

theorem splitOnChar_no_sep {sep : Char} {l : List Char} (h : sep ∉ l) :
    splitOnChar sep l = [l] := by
  induction l with
  | nil => rfl
  | cons x xs ih =>
    have hx : ¬(x = sep) := fun he => h (he ▸ List.mem_cons_self x xs)
    rw [splitOnChar, ih (fun hm => h (List.mem_cons_of_mem _ hm))]
    simp [hx]

theorem queryOffset_none_of_no_qmark {url : String} (h : '?' ∉ url.data) :
    queryOffset url = none := by
  rw [queryOffset, breakAt_eq_none h]

theorem stringMk_data (s : String) : String.mk s.data = s := rfl

theorem queryOffset_setOffset (url tok : String) (hq : '?' ∉ url.data)
    (ha : '&' ∉ tok.data) :
    queryOffset (setOffset url tok) = some tok := by
  have hbrk : breakAt '?' url.data = none := breakAt_eq_none hq
  rw [setOffset, if_neg (by simp [hbrk])]
  have hdata : (url ++ "?offset=" ++ tok).data =
      url.data ++ '?' :: (offsetKey ++ '=' :: tok.data) := by
    rw [String.data_append, String.data_append, List.append_assoc]
    rfl
  have hb2 : breakAt '?' (url ++ "?offset=" ++ tok).data =
      some (url.data, offsetKey ++ '=' :: tok.data) := by
    rw [hdata]
    exact breakAt_append _ hq
  have hnoamp : '&' ∉ offsetKey ++ '=' :: tok.data := by
    intro hm
    rcases List.mem_append.mp hm with h1 | h1
    · exact absurd h1 (by decide)
    · rcases List.mem_cons.mp h1 with h2 | h2
      · exact absurd h2 (by decide)
      · exact ha h2
  have hnoeq : '=' ∉ offsetKey := by decide
  have hb3 : breakAt '=' (offsetKey ++ '=' :: tok.data) = some (offsetKey, tok.data) :=
    breakAt_append _ hnoeq
  simp only [queryOffset, hb2, splitOnChar_no_sep hnoamp, paramValue, hb3]
  rw [if_pos (show offsetKey = ['o', 'f', 'f', 's', 'e', 't'] from rfl)]
  rfl

theorem setOffset_ne (url tok : String) (h : '?' ∉ url.data) : setOffset url tok ≠ url := by
  intro heq
  rw [setOffset, if_neg (by simp [breakAt_eq_none h])] at heq
  have hdat := congrArg String.data heq
  rw [String.data_append, String.data_append] at hdat
  have hlen := congrArg List.length hdat
  have h8 : ("?offset=" : String).data.length = 8 := rfl
  rw [List.length_append, List.length_append, h8] at hlen
  omega

theorem nodup_map_fst_aset {α : Type} (k : String) (v : α) {l : List (String × α)}
    (h : (l.map Prod.fst).Nodup) : ((aset k v l).map Prod.fst).Nodup := by
  by_cases hk : k ∈ l.map Prod.fst
  · rw [map_fst_aset_mem v hk]
    exact h
  · rw [map_fst_aset_not_mem v hk]
    refine List.nodup_append.mpr ⟨h, List.nodup_singleton k, ?_⟩
    intro a ha hb
    rw [List.mem_singleton] at hb
    exact hk (hb ▸ ha)

theorem endsOf_eq_nil {st : SiteStore} (h : ∀ e ∈ st, queryOffset e.1 = none) :
    endsOf st = [] := by
  rw [endsOf, List.filterMap_eq_nil_iff]
  intro e he
  rw [h e he]

theorem runMergeSt_no_ends (st : SiteStore) (h : endsOf st = []) (tm : SiteTimes) :
    runMergeSt st tm = ⟨st, st.map Prod.fst, tm, false⟩ := by
  unfold runMergeSt
  rw [h]
  exact foldl_fix (fun s hs => mergeStep_no_match (by rfl) _)

theorem forget_foldl_frame (now : Nat) (ref : String) (ks : List String)
    (h : ∀ k ∈ ks, k ≠ ref) :
    ∀ ct : Cache × Times,
      alookup ref (ks.foldl (forgetStep now ref) ct).1 = alookup ref ct.1 ∧
      alookup ref (ks.foldl (forgetStep now ref) ct).2 = alookup ref ct.2 := by
  induction ks with
  | nil => exact fun ct => ⟨rfl, rfl⟩
  | cons k rest ih =>
    intro ct
    have hk : k ≠ ref := h k (List.mem_cons_self _ _)
    have hstep : alookup ref (forgetStep now ref ct k).1 = alookup ref ct.1 ∧
        alookup ref (forgetStep now ref ct k).2 = alookup ref ct.2 := by
      cases hl : alookup k ((alookup ref ct.2).getD []) with
      | none =>
        simp [forgetStep, hl]
      | some ts =>
        simp only [forgetStep, hl]
        by_cases hcmp : FORGET_INTERVAL < now - ts
        · rw [if_pos hcmp]
          exact ⟨alookup_aerase_ne (Ne.symm hk) _, alookup_aerase_ne (Ne.symm hk) _⟩
        · rw [if_neg hcmp]
          exact ⟨rfl, rfl⟩
    rw [List.foldl_cons]
    have hrec := ih (fun b hb => h b (List.mem_cons_of_mem _ hb)) (forgetStep now ref ct k)
    exact ⟨hrec.1.trans hstep.1, hrec.2.trans hstep.2⟩

theorem forgetPass_frame (now : Nat) (ref : String) (c : Cache) (t : Times)
    (h : ∀ k ∈ ((alookup ref c).getD []).map Prod.fst, k ≠ ref) :
    alookup ref (forgetPass now ref c t).1 = alookup ref c ∧
    alookup ref (forgetPass now ref c t).2 = alookup ref t :=
  forget_foldl_frame now ref _ h (c, t)

theorem walk_first_fail (fetchFn : FetchFn) (now : Nat) (ref url tok : String)
    (r1 : FetchResult) (htok : tok ≠ "") (hf : fetchFn (setOffset url tok) = some r1)
    (hok : r1.ok = false) (fuel : Nat) (c : Cache) (t : Times) :
    walk fetchFn now ref url fuel (some tok) c t = (c, t, false) := by
  cases fuel with
  | zero => rfl
  | succ f =>
    rw [walk]
    simp only [offsetTruthy, if_neg htok, if_true, Option.getD_some, hf, hok]
    rfl

theorem mergedStore_init (st : SiteStore) (hnd : (st.map Prod.fst).Nodup)
    (tm : SiteTimes) (b : Bool) :
    mergedStore ⟨st, st.map Prod.fst, tm, b⟩ = st :=
  reconstruct_self st hnd

/-- Claim C5 counterexample: refetching `https://b` succeeds with records
`[a]` and token `T1`; the page at `offset=T1` succeeds (records `[b]`,
token `T2`); the page at `offset=T2` fails with status 500.  The walk
aborts mid-chain, but the closing `mergePaginatedData` still folds the
stored first fragment into the head: the head entry's payload becomes
`{records: [a, b], offset: T2}`, i.e. the mid-chain failure does NOT
leave the head entry's payload unmodified, refuting that clause of the
claim. -/
theorem claim_c5_counterexample :
    refreshCacheM
      (fun u =>
        if u = "https://b" then some ⟨true, 200, ⟨some ["a"], some "T1"⟩⟩
        else if u = "https://b?offset=T1" then some ⟨true, 200, ⟨some ["b"], some "T2"⟩⟩
        else if u = "https://b?offset=T2" then some ⟨false, 500, ⟨none, none⟩⟩
        else none)
      5 100 "https://b" "s"
      [("s", [("https://b", ⟨some ["old"], none⟩)])]
      [("s", [("https://b", 5)])] =
      ([("s", [("https://b", ⟨some ["a", "b"], some "T2"⟩)])],
       [("s", [("https://b", 100)])], true) := by
  rfl

/-- Claim C5 (amended): failure handling of the refresh cycle.
(i) A transport error on the refetch aborts `refreshCache` before any
mutation: the whole state is unchanged and no snapshot is written.
(ii) A refetch answered with a non-success status whose error body carries
no offset token leaves the site's entry store and timestamp map unchanged
(stale entry untouched), provided no identifier in the site's store equals
the site slug (the forgetting pass deletes top-level keys, see C2).
(iii) If the refreshed payload starts a pagination walk and the FIRST page
fetch fails with a non-success status, the chain is aborted with no
fragment stored and the head entry holds exactly the refetched payload
(conditions: the identifier carries no query string, the token has no
separator characters, the site holds no fragment identifiers, store keys
are unique, and no identifier equals the slug).  A failure deeper in the
chain aborts the walk but the closing merge folds already-stored fragments
into the head, as the counterexample shows. -/
theorem claim_c5 (fetchFn : FetchFn) (fuel now : Nat) (url ref : String)
    (c : Cache) (t : Times) :
    (fetchFn url = none → refreshCacheM fetchFn fuel now url ref c t = (c, t, false)) ∧
    (∀ r : FetchResult, fetchFn url = some r → r.ok = false → r.payload.offset = none →
      (∀ k ∈ ((alookup ref c).getD []).map Prod.fst, k ≠ ref) →
      alookup ref (refreshCacheM fetchFn fuel now url ref c t).1 = alookup ref c ∧
      alookup ref (refreshCacheM fetchFn fuel now url ref c t).2.1 = alookup ref t) ∧
    (∀ r r1 : FetchResult, ∀ tok : String, '?' ∉ url.data → '&' ∉ tok.data →
      fetchFn url = some r → r.ok = true → r.payload.offset = some tok → tok ≠ "" →
      fetchFn (setOffset url tok) = some r1 → r1.ok = false →
      (((alookup ref c).getD []).map Prod.fst).Nodup →
      (∀ k ∈ ((alookup ref c).getD []).map Prod.fst, queryOffset k = none) →
      (∀ k ∈ ((alookup ref c).getD []).map Prod.fst, k ≠ ref) → ref ≠ url →
      alookup url ((alookup ref (refreshCacheM fetchFn fuel now url ref c t).1).getD []) =
        some r.payload ∧
      alookup (setOffset url tok)
        ((alookup ref (refreshCacheM fetchFn fuel now url ref c t).1).getD []) = none) := by
  refine ⟨?_, ?_, ?_⟩
  · intro hfetch
    by_cases hq : (queryOffset url).isSome
    · simp [refreshCacheM, hq]
    · simp [refreshCacheM, hq, hfetch]
  · intro r hfetch hok hoff hkeys
    by_cases hq : (queryOffset url).isSome
    · simp [refreshCacheM, hq]
    · have hfp := forgetPass_frame now ref c t hkeys
      simp only [refreshCacheM, hq, Bool.false_eq_true, if_false, hfetch, hok, hoff,
        Option.isSome_none]
      exact ⟨hfp.1, hfp.2⟩
  · intro r r1 tok hqm hamp hfetch hok hoff htok hf1 hok1 hnd hfrag hkeys hru
    have hq : queryOffset url = none := queryOffset_none_of_no_qmark hqm
    have hsite1 : (alookup ref (csetE ref url r.payload c)).getD [] =
        aset url r.payload ((alookup ref c).getD []) := by
      rw [csetE, alookup_aset_self]
      rfl
    have hnd1 : ((aset url r.payload ((alookup ref c).getD [])).map Prod.fst).Nodup :=
      nodup_map_fst_aset _ _ hnd
    have hends : endsOf (aset url r.payload ((alookup ref c).getD [])) = [] := by
      apply endsOf_eq_nil
      intro e he
      rcases mem_aset he with h1 | h1
      · rw [h1]
        exact hq
      · exact hfrag e.1 (List.mem_map_of_mem Prod.fst h1)
    have hkeys1 : ∀ k ∈ (aset url r.payload ((alookup ref c).getD [])).map Prod.fst,
        k ≠ ref := by
      intro k hk
      by_cases hmem : url ∈ ((alookup ref c).getD []).map Prod.fst
      · rw [map_fst_aset_mem _ hmem] at hk
        exact hkeys k hk
      · rw [map_fst_aset_not_mem _ hmem] at hk
        rcases List.mem_append.mp hk with h1 | h1
        · exact hkeys k h1
        · rw [List.mem_singleton] at h1
          rw [h1]
          exact Ne.symm hru
    have hmain : alookup ref (refreshCacheM fetchFn fuel now url ref c t).1 =
        some (aset url r.payload ((alookup ref c).getD [])) := by
      simp only [refreshCacheM, hq, Option.isSome_none, Bool.false_eq_true, if_false,
        hfetch, hok, if_true, hoff, Option.isSome_some,
        walk_first_fail fetchFn now ref url tok r1 htok hf1 hok1,
        mergeSite, hsite1, runMergeSt_no_ends _ hends, mergedStore_init _ hnd1]
      have hG1 : alookup ref (aset ref (aset url r.payload ((alookup ref c).getD []))
          (csetE ref url r.payload c)) =
          some (aset url r.payload ((alookup ref c).getD [])) := alookup_aset_self _ _ _
      have hfr := forgetPass_frame now ref
        (aset ref (aset url r.payload ((alookup ref c).getD [])) (csetE ref url r.payload c))
        (aset ref ((alookup ref (tsetE ref url now t)).getD []) (tsetE ref url now t))
        (by rw [hG1]; exact hkeys1)
      rw [hfr.1, hG1]
    refine ⟨?_, ?_⟩
    · rw [hmain]
      simp only [Option.getD_some]
      exact alookup_aset_self _ _ _
    · rw [hmain]
      simp only [Option.getD_some]
      rw [alookup_aset_ne (setOffset_ne url tok hqm)]
      refine (alookup_eq_none_iff _ _).mpr ?_
      intro hmem
      have h1 := queryOffset_setOffset url tok hqm hamp
      rw [hfrag _ hmem] at h1
      exact Option.noConfusion h1

/-- Claim C5 witness: concrete transport error, failed refetch, and
first-page chain failure. -/
theorem claim_c5_witness :
    refreshCacheM (fun _ => none) 2 100 "https://b" "s"
      [("s", [("https://b", ⟨some ["old"], none⟩)])] [("s", [("https://b", 5)])] =
      ([("s", [("https://b", ⟨some ["old"], none⟩)])], [("s", [("https://b", 5)])], false) ∧
    (alookup "s" (refreshCacheM (fun _ => some ⟨false, 500, ⟨none, none⟩⟩) 2 100 "https://b" "s"
        [("s", [("https://b", ⟨some ["old"], none⟩)])] [("s", [("https://b", 5)])]).1 =
      alookup "s" [("s", [("https://b", ⟨some ["old"], none⟩)])] ∧
     alookup "s" (refreshCacheM (fun _ => some ⟨false, 500, ⟨none, none⟩⟩) 2 100 "https://b" "s"
        [("s", [("https://b", ⟨some ["old"], none⟩)])] [("s", [("https://b", 5)])]).2.1 =
      alookup "s" [("s", [("https://b", 5)])]) ∧
    (alookup "https://b" ((alookup "s" (refreshCacheM
        (fun u => if u = "https://b" then some ⟨true, 200, ⟨some ["a"], some "T1"⟩⟩
          else some ⟨false, 500, ⟨none, none⟩⟩) 2 100 "https://b" "s"
        [("s", [("https://b", ⟨some ["old"], none⟩)])]
        [("s", [("https://b", 5)])]).1).getD []) = some ⟨some ["a"], some "T1"⟩ ∧
     alookup "https://b?offset=T1" ((alookup "s" (refreshCacheM
        (fun u => if u = "https://b" then some ⟨true, 200, ⟨some ["a"], some "T1"⟩⟩
          else some ⟨false, 500, ⟨none, none⟩⟩) 2 100 "https://b" "s"
        [("s", [("https://b", ⟨some ["old"], none⟩)])]
        [("s", [("https://b", 5)])]).1).getD []) = none) := by
  refine ⟨?_, ?_, ?_⟩
  · exact (claim_c5 (fun _ => none) 2 100 "https://b" "s"
      [("s", [("https://b", ⟨some ["old"], none⟩)])] [("s", [("https://b", 5)])]).1 rfl
  · exact (claim_c5 (fun _ => some ⟨false, 500, ⟨none, none⟩⟩) 2 100 "https://b" "s"
      [("s", [("https://b", ⟨some ["old"], none⟩)])] [("s", [("https://b", 5)])]).2.1
      ⟨false, 500, ⟨none, none⟩⟩ rfl rfl rfl (by decide)
  · have h := (claim_c5
      (fun u => if u = "https://b" then some ⟨true, 200, ⟨some ["a"], some "T1"⟩⟩
        else some ⟨false, 500, ⟨none, none⟩⟩) 2 100 "https://b" "s"
      [("s", [("https://b", ⟨some ["old"], none⟩)])] [("s", [("https://b", 5)])]).2.2
      ⟨true, 200, ⟨some ["a"], some "T1"⟩⟩ ⟨false, 500, ⟨none, none⟩⟩ "T1"
      (by decide) (by decide) (by rfl) rfl rfl (by decide) (by rfl) rfl
      (by decide) (by decide) (by decide) (by decide)
    exact h

/-- Claim C6: for every request with the refresh query parameter equal to
the string "true", the façade takes the miss path even when an entry
exists for the identifier: it performs a synchronous upstream fetch, on
success overwrites the stored entry and its lastUpdated with the fresh
result, and returns the fresh payload with the upstream status (stated for
identifiers without a pagination parameter, so no merge interleaves). -/
theorem claim_c6 (fetchFn : FetchFn) (disk : String → Option SiteStore) (fuel now : Nat)
    (url ref : String) (c : Cache) (t : Times) (site : SiteStore) (p : Payload)
    (r : FetchResult)
    (hsite : alookup ref c = some site) (hentry : alookup url site = some p)
    (hfetch : fetchFn url = some r) (hok : r.ok = true) (hq : queryOffset url = none) :
    GETm fetchFn disk fuel now url ref (some "true") c t =
      some ((r.status, r.payload),
        aset ref (aset url r.payload site) c,
        aset ref (aset url now ((alookup ref t).getD [])) t) := by
  simp only [GETm, GETmiss, hsite, Option.getD_some, hentry, hfetch, hok, hq, csetE, tsetE,
    Option.isSome_none, Bool.false_eq_true, if_false, if_true]

/-- Claim C6 witness: force refresh against a fresh entry overwrites it. -/
theorem claim_c6_witness :
    GETm (fun _ => some ⟨true, 200, ⟨some ["new"], none⟩⟩) (fun _ => none) 2 100
      "https://b" "s" (some "true")
      [("s", [("https://b", ⟨some ["old"], none⟩)])] [("s", [("https://b", 99)])] =
      some ((200, ⟨some ["new"], none⟩),
        aset "s" (aset "https://b" ⟨some ["new"], none⟩ [("https://b", ⟨some ["old"], none⟩)])
          [("s", [("https://b", ⟨some ["old"], none⟩)])],
        aset "s" (aset "https://b" 100
            ((alookup "s" [("s", [("https://b", (99 : Nat))])]).getD []))
          [("s", [("https://b", 99)])]) := by
  exact claim_c6 (fun _ => some ⟨true, 200, ⟨some ["new"], none⟩⟩) (fun _ => none) 2 100
    "https://b" "s" [("s", [("https://b", ⟨some ["old"], none⟩)])]
    [("s", [("https://b", 99)])] [("https://b", ⟨some ["old"], none⟩)]
    ⟨some ["old"], none⟩ ⟨true, 200, ⟨some ["new"], none⟩⟩ rfl rfl rfl rfl (by decide)

/-- Claim C8: on the read path an entry is stored only for a successful
upstream response, and a cache hit is always answered with HTTP status
200.  Part one: a genuine miss answered with a non-success status leaves
the state unchanged and passes the upstream status through.  Part two: a
hit (entry present, refresh parameter not "true") responds with status
200. -/
theorem claim_c8 (fetchFn : FetchFn) (disk : String → Option SiteStore) (fuel now : Nat)
    (url ref : String) (c : Cache) (t : Times) (site : SiteStore)
    (hsite : alookup ref c = some site) :
    (∀ r : FetchResult, ∀ rp : Option String, alookup url site = none →
      fetchFn url = some r → r.ok = false → queryOffset url = none →
      GETm fetchFn disk fuel now url ref rp c t = some ((r.status, r.payload), c, t)) ∧
    (∀ p : Payload, ∀ rp : Option String, alookup url site = some p → rp ≠ some "true" →
      (GETm fetchFn disk fuel now url ref rp c t).map (fun x => x.1.1) = some 200) := by
  constructor
  · intro r rp hentry hfetch hok hq
    simp only [GETm, GETmiss, hsite, Option.getD_some, hentry, hfetch, hok, hq,
      Option.isSome_none, Bool.false_eq_true, if_false]
  · intro p rp hentry hrp
    have hrefresh : ¬(rp.getD "false" = "true") := by
      cases rp with
      | none => decide
      | some s => exact fun h => hrp (congrArg some h)
    simp only [GETm, hsite, Option.getD_some, hentry, if_neg hrefresh]
    simp

/-- Claim C8 witness: a failed miss stores nothing, and a hit answers
200. -/
theorem claim_c8_witness :
    GETm (fun _ => some ⟨false, 502, ⟨none, none⟩⟩) (fun _ => none) 2 100
      "https://miss" "s" (some "x")
      [("s", [("https://b", ⟨some ["old"], none⟩)])] [("s", [("https://b", 99)])] =
      some ((502, ⟨none, none⟩), [("s", [("https://b", ⟨some ["old"], none⟩)])],
        [("s", [("https://b", 99)])]) ∧
    (GETm (fun _ => some ⟨false, 502, ⟨none, none⟩⟩) (fun _ => none) 2 100
      "https://b" "s" (some "TRUE")
      [("s", [("https://b", ⟨some ["old"], none⟩)])]
      [("s", [("https://b", 99)])]).map (fun x => x.1.1) = some 200 := by
  constructor
  · exact (claim_c8 (fun _ => some ⟨false, 502, ⟨none, none⟩⟩) (fun _ => none) 2 100
      "https://miss" "s" [("s", [("https://b", ⟨some ["old"], none⟩)])]
      [("s", [("https://b", 99)])] [("https://b", ⟨some ["old"], none⟩)] rfl).1
      ⟨false, 502, ⟨none, none⟩⟩ (some "x") rfl rfl rfl (by decide)
  · exact (claim_c8 (fun _ => some ⟨false, 502, ⟨none, none⟩⟩) (fun _ => none) 2 100
      "https://b" "s" [("s", [("https://b", ⟨some ["old"], none⟩)])]
      [("s", [("https://b", 99)])] [("https://b", ⟨some ["old"], none⟩)] rfl).2
      ⟨some ["old"], none⟩ (some "TRUE") rfl (by decide)

/-- Claim C10: for a request with an existing cached entry, only the exact
query value refresh=true bypasses the cache: any other value of the
refresh parameter (for example "TRUE", "1", or the empty string) is
treated as false and the request is served from the cached entry with
status 200 (stated for identifiers without a pagination parameter). -/
theorem claim_c10 (fetchFn : FetchFn) (disk : String → Option SiteStore) (fuel now : Nat)
    (url ref : String) (c : Cache) (t : Times) (site : SiteStore) (p : Payload)
    (rp : Option String)
    (hsite : alookup ref c = some site) (hentry : alookup url site = some p)
    (hrp : rp ≠ some "true") (hq : queryOffset url = none) :
    (GETm fetchFn disk fuel now url ref rp c t).map Prod.fst = some (200, p) := by
  have hrefresh : ¬(rp.getD "false" = "true") := by
    cases rp with
    | none => decide
    | some s => exact fun h => hrp (congrArg some h)
  simp only [GETm, hsite, Option.getD_some, hentry, if_neg hrefresh, hq,
    Option.isSome_none, Bool.false_eq_true, if_false]
  simp

/-- Claim C10 witness: refresh values "TRUE", "1" and "" are all served
from the cached entry. -/
theorem claim_c10_witness :
    (GETm (fun _ => some ⟨true, 200, ⟨some ["live"], none⟩⟩) (fun _ => none) 2 100
      "https://b" "s" (some "TRUE")
      [("s", [("https://b", ⟨some ["old"], none⟩)])]
      [("s", [("https://b", 99)])]).map Prod.fst = some (200, ⟨some ["old"], none⟩) ∧
    (GETm (fun _ => some ⟨true, 200, ⟨some ["live"], none⟩⟩) (fun _ => none) 2 100
      "https://b" "s" (some "1")
      [("s", [("https://b", ⟨some ["old"], none⟩)])]
      [("s", [("https://b", 99)])]).map Prod.fst = some (200, ⟨some ["old"], none⟩) ∧
    (GETm (fun _ => some ⟨true, 200, ⟨some ["live"], none⟩⟩) (fun _ => none) 2 100
      "https://b" "s" (some "")
      [("s", [("https://b", ⟨some ["old"], none⟩)])]
      [("s", [("https://b", 99)])]).map Prod.fst = some (200, ⟨some ["old"], none⟩) := by
  refine ⟨?_, ?_, ?_⟩
  · exact claim_c10 (fun _ => some ⟨true, 200, ⟨some ["live"], none⟩⟩) (fun _ => none) 2 100
      "https://b" "s" [("s", [("https://b", ⟨some ["old"], none⟩)])]
      [("s", [("https://b", 99)])] [("https://b", ⟨some ["old"], none⟩)]
      ⟨some ["old"], none⟩ (some "TRUE") rfl rfl (by decide) rfl
  · exact claim_c10 (fun _ => some ⟨true, 200, ⟨some ["live"], none⟩⟩) (fun _ => none) 2 100
      "https://b" "s" [("s", [("https://b", ⟨some ["old"], none⟩)])]
      [("s", [("https://b", 99)])] [("https://b", ⟨some ["old"], none⟩)]
      ⟨some ["old"], none⟩ (some "1") rfl rfl (by decide) rfl
  · exact claim_c10 (fun _ => some ⟨true, 200, ⟨some ["live"], none⟩⟩) (fun _ => none) 2 100
      "https://b" "s" [("s", [("https://b", ⟨some ["old"], none⟩)])]
      [("s", [("https://b", 99)])] [("https://b", ⟨some ["old"], none⟩)]
      ⟨some ["old"], none⟩ (some "") rfl rfl (by decide) rfl

/-! ## Snapshot round-trip lemmas -/

theorem hexVal_hexDigitChar : ∀ n < 16, hexVal (hexDigitChar n) = some n := by decide

theorem escapeChar_length (c : Char) : 1 ≤ (escapeChar c).length := by
  rw [escapeChar]
  split_ifs <;> simp

theorem escapeList_length (s : List Char) : s.length ≤ (escapeList s).length := by
  induction s with
  | nil => simp [escapeList]
  | cons c cs ih =>
    rw [escapeList, List.length_append, List.length_cons]
    have := escapeChar_length c
    omega

theorem parseStringBody_escapeChar (c : Char) (f : Nat) (tail : List Char) :
    parseStringBody (f + 1) (escapeChar c ++ tail) =
      (parseStringBody f tail).map (fun pr => (c :: pr.1, pr.2)) := by
  by_cases h1 : c = '"'
  · subst h1
    simp [escapeChar, parseStringBody, decodeEscape, unescapeChar]
  by_cases h2 : c = '\\'
  · subst h2
    simp [escapeChar, parseStringBody, decodeEscape, unescapeChar]
  by_cases h3 : c = '\x08'
  · subst h3
    simp [escapeChar, parseStringBody, decodeEscape, unescapeChar]
  by_cases h4 : c = '\t'
  · subst h4
    simp [escapeChar, parseStringBody, decodeEscape, unescapeChar]
  by_cases h5 : c = '\n'
  · subst h5
    simp [escapeChar, parseStringBody, decodeEscape, unescapeChar]
  by_cases h6 : c = '\x0c'
  · subst h6
    simp [escapeChar, parseStringBody, decodeEscape, unescapeChar]
  by_cases h7 : c = '\r'
  · subst h7
    simp [escapeChar, parseStringBody, decodeEscape, unescapeChar]
  by_cases h8 : c.toNat < 32
  · have hesc : escapeChar c = ['\\', 'u', '0', '0', hexDigitChar (c.toNat / 16),
        hexDigitChar (c.toNat % 16)] := by
      rw [escapeChar, if_neg h1, if_neg h2, if_neg h3, if_neg h4, if_neg h5, if_neg h6,
        if_neg h7, if_pos h8]
    have hv1 : hexVal (hexDigitChar (c.toNat / 16)) = some (c.toNat / 16) :=
      hexVal_hexDigitChar _ (by omega)
    have hv2 : hexVal (hexDigitChar (c.toNat % 16)) = some (c.toNat % 16) :=
      hexVal_hexDigitChar _ (by omega)
    have hchar : Char.ofNat (c.toNat / 16 * 16 + c.toNat % 16) = c := by
      have harith : c.toNat / 16 * 16 + c.toNat % 16 = c.toNat := by omega
      rw [harith, Char.ofNat_toNat]
    have hv0 : hexVal '0' = some 0 := rfl
    rw [hesc]
    simp [parseStringBody, decodeEscape, decodeHex4, hv0, hv1, hv2, hchar]
  · have hesc : escapeChar c = [c] := by
      rw [escapeChar, if_neg h1, if_neg h2, if_neg h3, if_neg h4, if_neg h5, if_neg h6,
        if_neg h7, if_neg h8]
    rw [hesc]
    show parseStringBody (f + 1) (c :: tail) = _
    rw [parseStringBody, if_neg h1, if_neg h2]

theorem parseStringBody_escape (s : List Char) :
    ∀ (fuel : Nat) (rest : List Char), s.length + 1 ≤ fuel →
      parseStringBody fuel (escapeList s ++ '"' :: rest) = some (s, rest) := by
  induction s with
  | nil =>
    intro fuel rest hfuel
    cases fuel with
    | zero => omega
    | succ f =>
      show parseStringBody (f + 1) ('"' :: rest) = some ([], rest)
      rw [parseStringBody, if_pos rfl]
  | cons c cs ih =>
    intro fuel rest hfuel
    cases fuel with
    | zero => omega
    | succ f =>
      have hf : cs.length + 1 ≤ f := by
        rw [List.length_cons] at hfuel
        omega
      rw [escapeList, List.append_assoc, parseStringBody_escapeChar, ih f rest hf]
      rfl

theorem jquote_length (s : List Char) : 1 ≤ (jquote s).length := by
  simp [jquote]

theorem stringifyList_length {α : Type} (f : α → List Char) (hf : ∀ a, 1 ≤ (f a).length) :
    ∀ l : List α, l.length ≤ (stringifyList f l).length := by
  intro l
  induction l with
  | nil => simp [stringifyList]
  | cons a rest ih =>
    cases rest with
    | nil => simpa [stringifyList] using hf a
    | cons b rs =>
      rw [stringifyList, List.length_append, List.length_cons]
      have h1 := hf a
      simp only [List.length_cons] at ih ⊢
      omega

theorem jquote_append (s T : List Char) :
    jquote s ++ T = '"' :: (escapeList s ++ '"' :: T) := by
  simp [jquote]

theorem parseRecordsItems_inv :
    ∀ rs : List String, rs ≠ [] → ∀ (fuel : Nat) (rest : List Char),
      rs.length + 1 ≤ fuel →
      parseRecordsItems fuel (stringifyList (fun r => jquote r.data) rs ++ ']' :: rest) =
        some (rs, rest) := by
  intro rs
  induction rs with
  | nil => intro h; cases h rfl
  | cons r tl ih =>
    intro _ fuel rest hfuel
    cases fuel with
    | zero => simp at hfuel
    | succ f =>
      cases tl with
      | nil =>
        have hshape : stringifyList (fun r => jquote r.data) [r] ++ ']' :: rest =
            '"' :: (escapeList r.data ++ '"' :: (']' :: rest)) := by
          simp [stringifyList, jquote]
        rw [hshape]
        have hps := parseStringBody_escape r.data
          ((escapeList r.data ++ '"' :: (']' :: rest)).length + 1) (']' :: rest)
          (by
            have h1 := escapeList_length r.data
            rw [List.length_append, List.length_cons, List.length_cons]
            omega)
        simp only [parseRecordsItems, hps]
      | cons b rs2 =>
        have hshape : stringifyList (fun r => jquote r.data) (r :: b :: rs2) ++ ']' :: rest =
            '"' :: (escapeList r.data ++ '"' ::
              (',' :: (stringifyList (fun r => jquote r.data) (b :: rs2) ++ ']' :: rest))) := by
          simp [stringifyList, jquote, List.append_assoc]
        rw [hshape]
        have hps := parseStringBody_escape r.data
          ((escapeList r.data ++ '"' ::
            (',' :: (stringifyList (fun r => jquote r.data) (b :: rs2) ++ ']' :: rest))).length + 1)
          (',' :: (stringifyList (fun r => jquote r.data) (b :: rs2) ++ ']' :: rest))
          (by
            have h1 := escapeList_length r.data
            rw [List.length_append, List.length_cons, List.length_cons, List.length_append]
            omega)
        have hrec := ih (by simp) f rest (by simp only [List.length_cons] at hfuel ⊢; omega)
        simp only [parseRecordsItems, hps, hrec]
        rfl

theorem parseFieldList_offset (f : Nat) (acc : Payload) (o : String) (r5 : List Char) :
    parseFieldList (f + 1) acc (offsetField o ++ '}' :: r5) =
      some (⟨acc.records, some o⟩, r5) := by
  have hshape : offsetField o ++ '}' :: r5 =
      '"' :: (escapeList offsetKey ++ '"' ::
        (':' :: ('"' :: (escapeList o.data ++ '"' :: ('}' :: r5))))) := by
    simp [offsetField, jquote, List.append_assoc]
  rw [hshape]
  have hkey := parseStringBody_escape offsetKey
    ((escapeList offsetKey ++ '"' ::
      (':' :: ('"' :: (escapeList o.data ++ '"' :: ('}' :: r5))))).length + 1)
    (':' :: ('"' :: (escapeList o.data ++ '"' :: ('}' :: r5))))
    (by
      have h1 := escapeList_length offsetKey
      rw [List.length_append, List.length_cons]
      omega)
  have hval := parseStringBody_escape o.data
    ((escapeList o.data ++ '"' :: ('}' :: r5)).length + 1) ('}' :: r5)
    (by
      have h1 := escapeList_length o.data
      rw [List.length_append, List.length_cons]
      omega)
  simp only [parseFieldList, hkey, hval]
  rfl

theorem stringifyList_jquote_head (r : String) (tl : List String) :
    ∃ X : List Char, stringifyList (fun x => jquote x.data) (r :: tl) = '"' :: X := by
  cases tl with
  | nil => exact ⟨escapeList r.data ++ ['"'], by simp [stringifyList, jquote]⟩
  | cons b rs =>
    exact ⟨(escapeList r.data ++ ['"']) ++
      ',' :: stringifyList (fun x => jquote x.data) (b :: rs), by simp [stringifyList, jquote]⟩

theorem parseRecordsArray_quote (fuel : Nat) (T : List Char) :
    parseRecordsArray fuel ('"' :: T) = parseRecordsItems fuel ('"' :: T) := by
  simp [parseRecordsArray]

theorem parseRecordsArray_close (fuel : Nat) (T : List Char) :
    parseRecordsArray fuel (']' :: T) = some ([], T) := by
  simp [parseRecordsArray]

theorem parseFieldList_records_close (f : Nat) (acc : Payload) (rs : List String)
    (r5 : List Char) :
    parseFieldList (f + 1) acc (recordsField rs ++ '}' :: r5) =
      some (⟨some rs, acc.offset⟩, r5) := by
  cases rs with
  | nil =>
    have hshape : recordsField [] ++ '}' :: r5 =
        '"' :: (escapeList recordsKey ++ '"' :: (':' :: ('[' :: (']' :: ('}' :: r5))))) := by
      simp [recordsField, jquote, stringifyList, List.append_assoc]
    rw [hshape]
    have hkey := parseStringBody_escape recordsKey
      ((escapeList recordsKey ++ '"' :: (':' :: ('[' :: (']' :: ('}' :: r5))))).length + 1)
      (':' :: ('[' :: (']' :: ('}' :: r5))))
      (by
        have h1 := escapeList_length recordsKey
        rw [List.length_append, List.length_cons]
        omega)
    simp only [parseFieldList, hkey, if_true, parseRecordsArray_close]
  | cons r tl =>
    obtain ⟨X, hX⟩ := stringifyList_jquote_head r tl
    have hshape : recordsField (r :: tl) ++ '}' :: r5 =
        '"' :: (escapeList recordsKey ++ '"' :: (':' :: ('[' ::
          (stringifyList (fun x => jquote x.data) (r :: tl) ++ ']' :: ('}' :: r5))))) := by
      simp [recordsField, List.append_assoc, jquote]
    rw [hshape]
    have hkey := parseStringBody_escape recordsKey
      ((escapeList recordsKey ++ '"' :: (':' :: ('[' ::
        (stringifyList (fun x => jquote x.data) (r :: tl) ++ ']' :: ('}' :: r5))))).length + 1)
      (':' :: ('[' :: (stringifyList (fun x => jquote x.data) (r :: tl) ++ ']' :: ('}' :: r5))))
      (by
        have h1 := escapeList_length recordsKey
        rw [List.length_append, List.length_cons]
        omega)
    have hri := parseRecordsItems_inv (r :: tl) (by simp)
      ((stringifyList (fun x => jquote x.data) (r :: tl) ++ ']' :: ('}' :: r5)).length + 1)
      ('}' :: r5)
      (by
        have h1 := stringifyList_length (fun x => jquote x.data)
          (fun a => jquote_length a.data) (r :: tl)
        simp only [List.length_append, List.length_cons] at h1 ⊢
        omega)
    rw [hX] at hkey hri ⊢
    simp only [List.cons_append] at hkey hri
    simp only [parseFieldList, List.cons_append, hkey, if_true, parseRecordsArray_quote, hri]

theorem parseFieldList_records_comma (f : Nat) (acc : Payload) (rs : List String)
    (tail : List Char) :
    parseFieldList (f + 1) acc (recordsField rs ++ ',' :: tail) =
      parseFieldList f ⟨some rs, acc.offset⟩ tail := by
  cases rs with
  | nil =>
    have hshape : recordsField [] ++ ',' :: tail =
        '"' :: (escapeList recordsKey ++ '"' :: (':' :: ('[' :: (']' :: (',' :: tail))))) := by
      simp [recordsField, jquote, stringifyList, List.append_assoc]
    rw [hshape]
    have hkey := parseStringBody_escape recordsKey
      ((escapeList recordsKey ++ '"' :: (':' :: ('[' :: (']' :: (',' :: tail))))).length + 1)
      (':' :: ('[' :: (']' :: (',' :: tail))))
      (by
        have h1 := escapeList_length recordsKey
        rw [List.length_append, List.length_cons]
        omega)
    simp only [parseFieldList, hkey, if_true, parseRecordsArray_close]
  | cons r tl =>
    obtain ⟨X, hX⟩ := stringifyList_jquote_head r tl
    have hshape : recordsField (r :: tl) ++ ',' :: tail =
        '"' :: (escapeList recordsKey ++ '"' :: (':' :: ('[' ::
          (stringifyList (fun x => jquote x.data) (r :: tl) ++ ']' :: (',' :: tail))))) := by
      simp [recordsField, List.append_assoc, jquote]
    rw [hshape]
    have hkey := parseStringBody_escape recordsKey
      ((escapeList recordsKey ++ '"' :: (':' :: ('[' ::
        (stringifyList (fun x => jquote x.data) (r :: tl) ++ ']' :: (',' :: tail))))).length + 1)
      (':' :: ('[' :: (stringifyList (fun x => jquote x.data) (r :: tl) ++ ']' :: (',' :: tail))))
      (by
        have h1 := escapeList_length recordsKey
        rw [List.length_append, List.length_cons]
        omega)
    have hri := parseRecordsItems_inv (r :: tl) (by simp)
      ((stringifyList (fun x => jquote x.data) (r :: tl) ++ ']' :: (',' :: tail)).length + 1)
      (',' :: tail)
      (by
        have h1 := stringifyList_length (fun x => jquote x.data)
          (fun a => jquote_length a.data) (r :: tl)
        simp only [List.length_append, List.length_cons] at h1 ⊢
        omega)
    rw [hX] at hkey hri ⊢
    simp only [List.cons_append] at hkey hri
    simp only [parseFieldList, List.cons_append, hkey, if_true, parseRecordsArray_quote, hri]

theorem parsePayload_quote (T : List Char) :
    parsePayload ('{' :: '"' :: T) = parseFieldList 3 ⟨none, none⟩ ('"' :: T) := rfl

theorem parsePayload_stringify (p : Payload) (rest : List Char) :
    parsePayload (stringifyPayload p ++ rest) = some (p, rest) := by
  obtain ⟨rcs, ofs⟩ := p
  cases rcs with
  | none =>
    cases ofs with
    | none => rfl
    | some o =>
      have hshape : stringifyPayload ⟨none, some o⟩ ++ rest =
          '{' :: (offsetField o ++ '}' :: rest) := by
        simp [stringifyPayload, List.append_assoc]
      obtain ⟨T, hT⟩ : ∃ T, offsetField o ++ '}' :: rest = '"' :: T :=
        ⟨escapeList offsetKey ++ '"' :: (':' :: (jquote o.data ++ '}' :: rest)),
          by simp [offsetField, jquote, List.append_assoc]⟩
      rw [hshape, hT, parsePayload_quote, ← hT,
        show (3 : Nat) = 2 + 1 from rfl, parseFieldList_offset]
  | some rs =>
    cases ofs with
    | none =>
      have hshape : stringifyPayload ⟨some rs, none⟩ ++ rest =
          '{' :: (recordsField rs ++ '}' :: rest) := by
        simp [stringifyPayload, List.append_assoc]
      obtain ⟨T, hT⟩ : ∃ T, recordsField rs ++ '}' :: rest = '"' :: T :=
        ⟨escapeList recordsKey ++ '"' :: (':' :: ('[' ::
          (stringifyList (fun r => jquote r.data) rs ++ ']' :: ('}' :: rest)))),
          by simp [recordsField, jquote, List.append_assoc]⟩
      rw [hshape, hT, parsePayload_quote, ← hT,
        show (3 : Nat) = 2 + 1 from rfl, parseFieldList_records_close]
    | some o =>
      have hshape : stringifyPayload ⟨some rs, some o⟩ ++ rest =
          '{' :: (recordsField rs ++ ',' :: (offsetField o ++ '}' :: rest)) := by
        simp [stringifyPayload, List.append_assoc]
      obtain ⟨T, hT⟩ : ∃ T, recordsField rs ++ ',' :: (offsetField o ++ '}' :: rest) =
          '"' :: T :=
        ⟨escapeList recordsKey ++ '"' :: (':' :: ('[' ::
          (stringifyList (fun r => jquote r.data) rs ++ ']' ::
            (',' :: (offsetField o ++ '}' :: rest))))),
          by simp [recordsField, jquote, List.append_assoc]⟩
      rw [hshape, hT, parsePayload_quote, ← hT,
        show (3 : Nat) = 2 + 1 from rfl, parseFieldList_records_comma,
        show (2 : Nat) = 1 + 1 from rfl, parseFieldList_offset]

theorem parseEntries_inv :
    ∀ st : SiteStore, st ≠ [] → ∀ (fuel : Nat) (rest : List Char), st.length + 1 ≤ fuel →
      parseEntries fuel (stringifyList entryChars st ++ '}' :: rest) =
        some (st, '}' :: rest) := by
  intro st
  induction st with
  | nil => intro h; cases h rfl
  | cons e tl ih =>
    intro _ fuel rest hfuel
    cases fuel with
    | zero => simp at hfuel
    | succ f =>
      cases tl with
      | nil =>
        have hshape : stringifyList entryChars [e] ++ '}' :: rest =
            '"' :: (escapeList e.1.data ++ '"' ::
              (':' :: (stringifyPayload e.2 ++ '}' :: rest))) := by
          simp [stringifyList, entryChars, jquote, List.append_assoc]
        rw [hshape]
        have hkey := parseStringBody_escape e.1.data
          ((escapeList e.1.data ++ '"' ::
            (':' :: (stringifyPayload e.2 ++ '}' :: rest))).length + 1)
          (':' :: (stringifyPayload e.2 ++ '}' :: rest))
          (by
            have h1 := escapeList_length e.1.data
            rw [List.length_append, List.length_cons]
            omega)
        have hpp := parsePayload_stringify e.2 ('}' :: rest)
        simp only [parseEntries, hkey, hpp]
        rfl
      | cons b tl2 =>
        have hshape : stringifyList entryChars (e :: b :: tl2) ++ '}' :: rest =
            '"' :: (escapeList e.1.data ++ '"' ::
              (':' :: (stringifyPayload e.2 ++
                ',' :: (stringifyList entryChars (b :: tl2) ++ '}' :: rest)))) := by
          simp [stringifyList, entryChars, jquote, List.append_assoc]
        rw [hshape]
        have hkey := parseStringBody_escape e.1.data
          ((escapeList e.1.data ++ '"' ::
            (':' :: (stringifyPayload e.2 ++
              ',' :: (stringifyList entryChars (b :: tl2) ++ '}' :: rest)))).length + 1)
          (':' :: (stringifyPayload e.2 ++
            ',' :: (stringifyList entryChars (b :: tl2) ++ '}' :: rest)))
          (by
            have h1 := escapeList_length e.1.data
            rw [List.length_append, List.length_cons]
            omega)
        have hpp := parsePayload_stringify e.2
          (',' :: (stringifyList entryChars (b :: tl2) ++ '}' :: rest))
        have hrec := ih (by simp) f rest
          (by simp only [List.length_cons] at hfuel ⊢; omega)
        simp only [parseEntries, hkey, hpp, hrec]
        rfl

theorem parseStore_quote (T : List Char) :
    parseStore ('{' :: '"' :: T) =
      parseStoreTail (parseEntries (('"' :: T).length + 1) ('"' :: T)) := rfl

theorem entryChars_length (e : String × Payload) : 1 ≤ (entryChars e).length := by
  have := jquote_length e.1.data
  simp only [entryChars, List.length_append]
  omega

theorem parseStore_stringifyStore (st : SiteStore) :
    parseStore (stringifyStore st) = some st := by
  cases st with
  | nil => rfl
  | cons e tl =>
    obtain ⟨T, hT⟩ : ∃ T, stringifyList entryChars (e :: tl) = '"' :: T := by
      cases tl with
      | nil =>
        exact ⟨escapeList e.1.data ++ '"' :: (':' :: stringifyPayload e.2),
          by simp [stringifyList, entryChars, jquote, List.append_assoc]⟩
      | cons b l =>
        exact ⟨escapeList e.1.data ++ '"' :: (':' :: (stringifyPayload e.2 ++
          ',' :: stringifyList entryChars (b :: l))),
          by simp [stringifyList, entryChars, jquote, List.append_assoc]⟩
    have hshape : stringifyStore (e :: tl) =
        '{' :: '"' :: (T ++ '}' :: []) := by
      rw [stringifyStore, hT]
      simp
    have hinv := parseEntries_inv (e :: tl) (by simp)
      (('"' :: (T ++ '}' :: [])).length + 1) []
      (by
        have h1 := stringifyList_length entryChars entryChars_length (e :: tl)
        rw [hT] at h1
        simp only [List.length_cons, List.length_append] at h1 ⊢
        omega)
    rw [hT] at hinv
    simp only [List.cons_append] at hinv
    rw [hshape, parseStore_quote, hinv]
    rfl

theorem lastIdx_eq_none {c : Char} {l : List Char} (h : c ∉ l) : lastIdx c l = none := by
  induction l with
  | nil => rfl
  | cons x xs ih =>
    have hx : ¬(x = c) := fun he => h (he ▸ List.mem_cons_self x xs)
    rw [lastIdx, ih (fun hm => h (List.mem_cons_of_mem _ hm))]
    simp [hx]

theorem lastIdx_append_right (c : Char) (A : List Char) {B : List Char} {i : Nat}
    (h : lastIdx c B = some i) : lastIdx c (A ++ B) = some (A.length + i) := by
  induction A with
  | nil => simpa using h
  | cons x xs ih =>
    rw [List.cons_append, lastIdx, ih]
    show some (xs.length + i + 1) = some ((x :: xs).length + i)
    congr 1
    simp only [List.length_cons]
    omega

theorem lastIdx_append_none (c : Char) (X : List Char) {S : List Char}
    (h : lastIdx c S = none) : lastIdx c (X ++ S) = lastIdx c X := by
  induction X with
  | nil => simpa using h
  | cons x xs ih =>
    rw [List.cons_append, lastIdx, ih, lastIdx]

theorem lastIdx_snoc (c : Char) (J : List Char) : lastIdx c (J ++ [c]) = some J.length := by
  have h : lastIdx c [c] = some 0 := by simp [lastIdx]
  simpa using lastIdx_append_right c J h

theorem trimChars_brace (mid : List Char) :
    trimChars ('{' :: (mid ++ ['}'])) = '{' :: (mid ++ ['}']) := by
  have hdrop1 : ('{' :: (mid ++ ['}'])).dropWhile isWS = '{' :: (mid ++ ['}']) := by
    rw [List.dropWhile_cons]
    simp [isWS]
  have hrev : ('{' :: (mid ++ ['}'])).reverse = '}' :: (mid.reverse ++ ['{']) := by
    simp
  have hdrop2 : ('}' :: (mid.reverse ++ ['{'])).dropWhile isWS =
      '}' :: (mid.reverse ++ ['{']) := by
    rw [List.dropWhile_cons]
    simp [isWS]
  rw [trimChars, hdrop1, hrev, hdrop2, ← hrev, List.reverse_reverse]

/-- Claim C3: saving a site mapping and loading it back yields a mapping
equal to the original, regardless of the payload contents: the loader
locates the embedded data region by the position of the last closing
brace, so the round trip holds even when some payload value contains the
suffix wrapper token as data (the serializer escapes the token's newline,
and the suffix itself contains no closing brace). -/
theorem claim_c3 (st : SiteStore) : loadFileChars (saveFileChars st) = some st := by
  have hstore : stringifyStore st = ('{' :: stringifyList entryChars st) ++ ['}'] := by
    simp [stringifyStore]
  have hnoS : '}' ∉ SUFFIX.data := by decide
  have hlast : lastIdx '}' (saveFileChars st) =
      some ((PREFIX.data ++ ('{' :: stringifyList entryChars st)).length) := by
    rw [saveFileChars, lastIdx_append_none '}' _ (lastIdx_eq_none hnoS), hstore,
      show PREFIX.data ++ (('{' :: stringifyList entryChars st) ++ ['}']) =
        (PREFIX.data ++ ('{' :: stringifyList entryChars st)) ++ ['}'] from
        (List.append_assoc _ _ _).symm]
    exact lastIdx_snoc _ _
  have htake : (saveFileChars st).take
      ((PREFIX.data ++ ('{' :: stringifyList entryChars st)).length + 1) =
      PREFIX.data ++ stringifyStore st := by
    rw [saveFileChars,
      show (PREFIX.data ++ stringifyStore st) ++ SUFFIX.data =
        ((PREFIX.data ++ ('{' :: stringifyList entryChars st)) ++ ['}']) ++ SUFFIX.data from
        by rw [hstore]; simp [List.append_assoc]]
    rw [List.take_left' (by simp; omega)]
    rw [List.append_assoc, ← hstore]
  have hdrop : (PREFIX.data ++ stringifyStore st).drop PREFIX.data.length =
      stringifyStore st := List.drop_left _ _
  have htrim : trimChars (stringifyStore st) = stringifyStore st := by
    rw [show stringifyStore st = '{' :: (stringifyList entryChars st ++ ['}']) from rfl]
    exact trimChars_brace _
  simp only [loadFileChars, hlast, htake, hdrop, htrim]
  exact parseStore_stringifyStore st
